import Mathlib

/-!
Verification of the malloclab allocator (`mm.c`): an implicit boundary-tag
heap with an address-ordered model, plus a size-ordered doubly linked free
list whose links live in the payloads of free blocks.

The heap is modelled at block granularity: the arena is the list of blocks
between the prologue and the epilogue, in physical (address) order.  Each
block carries its header word and its footer word separately (both packed
`size | alloc` words, as written by `PUT_W(HDRP(bp), PACK(..))` and
`PUT_W(FTRP(bp), PACK(..))`).  The payload address (`bp`) of the i-th block
is `16 + (sum of the sizes of the blocks before it)`: the C heap starts with
a 4-byte pad word, the 8-byte prologue block and the 4-byte epilogue header,
so the first payload sits at offset 16.  The doubly linked free list is
modelled as the list of payload addresses obtained by starting at
`free_list_tail` and repeatedly following `GET_PREV_PTR`, i.e. its head is
the tracked tail (smallest block) and its last element is the largest block.
`mem_sbrk` is modelled by a remaining-capacity counter `avail`; it fails
(returns `(void *)-1`) when asked for more bytes than remain.

Sizes and addresses are modelled as exact natural numbers.  The machine
width effects that the source exhibits are analysed separately where they
are the subject of a claim: the `int` truncation of `adjusted_size` in
`mm_malloc` (`adjusted_size_c` below) and the 32-bit `unsigned int` link
fields of free blocks (`SET_PREV_PTR`/`GET_PREV_PTR` below).
-/

/-- GET_SIZE: `GET_W(p) & ~0x7` — the header word with its low three bits
cleared, i.e. rounded down to a multiple of 8. -/
def GET_SIZE (w : Nat) : Nat := w - w % 8

/-- GET_ISALLOCATED: `GET_W(p) & 0x1` — the low bit of the header word. -/
def GET_ISALLOCATED (w : Nat) : Nat := w % 2

/-- PACK: `(size) | (alloc)`.  Size is always a multiple of 8 and alloc is
0 or 1, so the bitwise or is plain addition. -/
def PACK (size alloc : Nat) : Nat := size + alloc

/-- ALIGN: `((size) + (ALIGNMENT-1)) & ~0x7` — round up to a multiple of 8. -/
def ALIGN (size : Nat) : Nat := (size + 7) - (size + 7) % 8

/-- One block of the arena: its header word and its footer word.
`PUT_W(HDRP(bp), w)` updates `hdr`; the matching `PUT_W(FTRP(bp), w)`
(whose address is computed from the size just stored in the header)
updates `ftr` of the block spanning that extent. -/
structure Blk where
  hdr : Nat
  ftr : Nat
deriving Repr, DecidableEq

/-- Total bytes covered by a list of blocks (each block covers
`GET_SIZE hdr` bytes, header and footer included). -/
def sumSizes (bs : List Blk) : Nat := (bs.map (fun b => GET_SIZE b.hdr)).sum

/-- Payload addresses of the blocks of `bs`, the first block starting at
payload address `s`. -/
def bpAddrs (s : Nat) : List Blk → List Nat
  | [] => []
  | b :: bs => s :: bpAddrs (s + GET_SIZE b.hdr) bs

/-- The block whose payload address is `a`, scanning from payload address
`s` — the model's reading of the memory at `HDRP(a)`. -/
def blkAtFrom (s : Nat) : List Blk → Nat → Option Blk
  | [], _ => none
  | b :: bs, a => if a = s then some b else blkAtFrom (s + GET_SIZE b.hdr) bs a

/-- Split the arena at the block with payload address `a`: the blocks
before it, the block itself, and the blocks after it. -/
def splitAtAddr (s : Nat) : List Blk → Nat → Option (List Blk × Blk × List Blk)
  | [], _ => none
  | b :: bs, a =>
    if a = s then some ([], b, bs)
    else (splitAtAddr (s + GET_SIZE b.hdr) bs a).map fun t => (b :: t.1, t.2.1, t.2.2)

/-- Payload addresses of the free blocks of `bs` (blocks whose header has
allocated bit 0), in address order. -/
def freeAddrsFrom (s : Nat) : List Blk → List Nat
  | [] => []
  | b :: bs =>
    if GET_ISALLOCATED b.hdr = 0 then s :: freeAddrsFrom (s + GET_SIZE b.hdr) bs
    else freeAddrsFrom (s + GET_SIZE b.hdr) bs

/-- The global allocator state: the blocks between prologue and epilogue in
address order, the free list read from `free_list_tail` along
`GET_PREV_PTR` (head = tail = smallest), and the remaining `mem_sbrk`
capacity in bytes. -/
structure HeapState where
  blocks : List Blk
  freeList : List Nat
  avail : Nat
deriving Repr, DecidableEq

/-- `GET_SIZE(HDRP(a))` in a given arena (0 when `a` is not a block
payload address; the C code never reads a size at a non-block address in
the executions modelled here). -/
def sizeAt (bs : List Blk) (a : Nat) : Nat :=
  match blkAtFrom 16 bs a with
  | some b => GET_SIZE b.hdr
  | none => 0

/-- Whether `a` is the payload address of an allocated block. -/
def isAllocatedAt (st : HeapState) (a : Nat) : Bool :=
  match blkAtFrom 16 st.blocks a with
  | some b => GET_ISALLOCATED b.hdr == 1
  | none => false

/-- `insert_node(bp, blk_size)`: walk from the tail (`prev = free_list_tail`)
toward larger blocks while `blk_size > GET_SIZE(HDRP(prev))`, then splice
`bp` in (the four pointer cases of the C code are the positions in the
tail-to-head list). -/
def insert_node (bs : List Blk) (fl : List Nat) (bp : Nat) (blk_size : Nat) : List Nat :=
  match fl with
  | [] => [bp]
  | p :: rest =>
    if blk_size > sizeAt bs p then p :: insert_node bs rest bp blk_size
    else bp :: p :: rest

/-- `remove_node(bp)`: unlink `bp` from the doubly linked list through its
own recorded neighbour links (updating `free_list_tail` when `bp` was the
tail).  On the tail-to-head list this erases the (unique) occurrence of
`bp`. -/
def remove_node (fl : List Nat) (bp : Nat) : List Nat :=
  match fl with
  | [] => []
  | p :: rest => if p = bp then rest else p :: remove_node rest bp

/-- The search loop of `find_fitting_blk`: from the tail, skip while
`blk_size > GET_SIZE(HDRP(bp))`; return the first block that fits. -/
def find_fit_walk (bs : List Blk) (blk_size : Nat) : List Nat → Option Nat
  | [] => none
  | bp :: rest =>
    if blk_size > sizeAt bs bp then find_fit_walk bs blk_size rest
    else some bp

/-- The body of `coalesce(bp)` once the block at `bp` is located as
`pre ++ b :: post`: absorb a free next neighbour and/or a free previous
neighbour (removing each absorbed block from the free list and rewriting
the merged header/footer), then insert the resulting block into the free
list.  The next block sits right after `bp`'s extent; the previous block is
located through its footer (`PREV_BLKP`).  Returns the final `bp`. -/
def coalesce_body (pre : List Blk) (b : Blk) (post : List Blk)
    (fl : List Nat) (avail : Nat) (bp : Nat) : Nat × HeapState :=
    let size := GET_SIZE b.hdr
    let is_next_allocated : Bool :=
      match post with
      | [] => true
      | n :: _ => GET_ISALLOCATED n.hdr == 1
    let is_prev_allocated : Bool :=
      match pre.getLast? with
      | none => true
      | some p => GET_ISALLOCATED p.hdr == 1
    let size1 := if is_next_allocated then size
                 else size + (match post with | [] => 0 | n :: _ => GET_SIZE n.hdr)
    let post1 := if is_next_allocated then post else post.tail
    let fl1 := if is_next_allocated then fl
               else remove_node fl (bp + size)
    let sp := match pre.getLast? with | none => 0 | some p => GET_SIZE p.ftr
    let size2 := if is_prev_allocated then size1
                 else size1 + (match pre.getLast? with | none => 0 | some p => GET_SIZE p.hdr)
    let pre2 := if is_prev_allocated then pre else pre.dropLast
    let bp2 := if is_prev_allocated then bp else bp - sp
    let fl2 := if is_prev_allocated then fl1 else remove_node fl1 (bp - sp)
    let finalBlk : Blk :=
      if is_next_allocated && is_prev_allocated then b
      else ⟨PACK size2 0, PACK size2 0⟩
    let blocks2 := pre2 ++ finalBlk :: post1
    (bp2, { blocks := blocks2
            freeList := insert_node blocks2 fl2 bp2 (GET_SIZE finalBlk.hdr)
            avail := avail })

/-- `coalesce(bp)` proper: locate the block at `bp` and run the
absorb-and-reinsert body on it. -/
def coalesce (st : HeapState) (bp : Nat) : Nat × HeapState :=
  match splitAtAddr 16 st.blocks bp with
  | none => (bp, st)
  | some (pre, b, post) => coalesce_body pre b post st.freeList st.avail bp

/-- `extend_heap(words)`: round `words` up to an even count, request
`aligned_words * WSIZE` bytes from `mem_sbrk` (failure propagates as
`none`), lay a free block over the new bytes plus the old epilogue, write
the new epilogue, and coalesce with a free block immediately before. -/
def extend_heap (st : HeapState) (words : Nat) : Option Nat × HeapState :=
  let aligned_words := if words % 2 = 0 then words else words + 1
  let extend_size := aligned_words * 4
  if st.avail < extend_size then (none, st)
  else
    let bp := 16 + sumSizes st.blocks
    let st1 : HeapState :=
      { blocks := st.blocks ++ [⟨PACK extend_size 0, PACK extend_size 0⟩]
        freeList := st.freeList
        avail := st.avail - extend_size }
    let r := coalesce st1 bp
    (some r.1, r.2)

/-- The body of `allocate(bp, blk_size)`: split when the leftover is at
least `MINIMUM_BLK_SIZE` (16), marking the front allocated and inserting
the remainder as a new free block; otherwise mark the whole block
allocated.  Returns `bp`. -/
def allocate_body (pre : List Blk) (b : Blk) (post : List Blk)
    (fl1 : List Nat) (avail : Nat) (bp : Nat) (blk_size : Nat) : Nat × HeapState :=
    let curr := GET_SIZE b.hdr
    if curr - blk_size ≥ 16 then
      let blocks2 := pre ++ ⟨PACK blk_size 1, PACK blk_size 1⟩ ::
                       ⟨PACK (curr - blk_size) 0, PACK (curr - blk_size) 0⟩ :: post
      (bp, { blocks := blocks2
             freeList := insert_node blocks2 fl1 (bp + blk_size) (curr - blk_size)
             avail := avail })
    else
      (bp, { blocks := pre ++ ⟨PACK curr 1, PACK curr 1⟩ :: post
             freeList := fl1
             avail := avail })

/-- `allocate(bp, blk_size)` proper: remove `bp` from the free list, then
split or consume the located block. -/
def allocate (st : HeapState) (bp : Nat) (blk_size : Nat) : Nat × HeapState :=
  let fl1 := remove_node st.freeList bp
  match splitAtAddr 16 st.blocks bp with
  | none => (bp, { st with freeList := fl1 })
  | some (pre, b, post) => allocate_body pre b post fl1 st.avail bp blk_size

/-- `find_fitting_blk(blk_size)`: walk the free list from the tail; if no
block fits, extend the heap by `MAX(blk_size, CHUNKSIZE) / WSIZE` words. -/
def find_fitting_blk (st : HeapState) (blk_size : Nat) : Option Nat × HeapState :=
  match find_fit_walk st.blocks blk_size st.freeList with
  | none => extend_heap st (max blk_size 4096 / 4)
  | some bp => (some bp, st)

/-- `mm_malloc(size)`: reject 0; adjust the size (`ALIGN(size + DSIZE)`,
covering header+footer and alignment); find a fitting block (growing the
heap if needed, failure propagating as `none`); allocate it. -/
def mm_malloc (st : HeapState) (size : Nat) : Option Nat × HeapState :=
  if size = 0 then (none, st)
  else
    let adjusted_size := ALIGN (size + 8)
    match find_fitting_blk st adjusted_size with
    | (none, st1) => (none, st1)
    | (some bp, st1) =>
      let r := allocate st1 bp adjusted_size
      (some r.1, r.2)

/-- The body of `mm_free(ptr)`: rewrite header and footer with the
allocated bit cleared, then coalesce. -/
def mm_free_body (pre : List Blk) (b : Blk) (post : List Blk)
    (fl : List Nat) (avail : Nat) (ptr : Nat) : HeapState :=
    let curr := GET_SIZE b.hdr
    let st1 : HeapState :=
      { blocks := pre ++ ⟨PACK curr 0, PACK curr 0⟩ :: post
        freeList := fl
        avail := avail }
    (coalesce st1 ptr).2

/-- `mm_free(ptr)` proper: locate the block and run the free-and-coalesce
body on it. -/
def mm_free (st : HeapState) (ptr : Nat) : HeapState :=
  match splitAtAddr 16 st.blocks ptr with
  | none => st
  | some (pre, b, post) => mm_free_body pre b post st.freeList st.avail ptr

/-- `mm_realloc(ptr, size)`, transliterated branch by branch.  `size == 0`
returns `NULL` at once (the block is not freed).  When the current block is
too small: a free next block is absorbed only when `remaining_size >= 0`
(when it is negative nothing at all happens and the original pointer is
returned); the heap-growing branch is guarded by
`GET_SIZE(HDRP(ptr)) == 0`, which no real block satisfies (every block is
at least 16 bytes) — in it, when `remaining_size >= 0`, the C code reads
the uninitialised variable `extend_size`, modelled here as 0; otherwise the
fallback allocates, copies `MIN(size, new_blk_size)` bytes (the `memcpy`
runs even when `mm_malloc` returned `NULL`), frees the old block and
returns the new pointer. -/
def mm_realloc (st : HeapState) (ptr : Nat) (size : Nat) : Option Nat × HeapState :=
  if size = 0 then (none, st)
  else
    let new_blk_size := if size ≤ 8 then 16 else ALIGN (size + 8)
    match splitAtAddr 16 st.blocks ptr with
    | none => (some ptr, st)
    | some (pre, b, post) =>
      let curr := GET_SIZE b.hdr
      if curr < new_blk_size then
        let next_size := match post with | [] => 0 | n :: _ => GET_SIZE n.hdr
        let next_allocated : Bool :=
          match post with
          | [] => true
          | n :: _ => GET_ISALLOCATED n.hdr == 1
        let remaining_size : Int := (curr : Int) + next_size - new_blk_size
        if !next_allocated then
          if remaining_size ≥ 0 then
            let fl1 := remove_node st.freeList (ptr + curr)
            let total := ((new_blk_size : Int) + remaining_size).toNat
            (some ptr, { st with blocks := pre ++ ⟨PACK total 1, PACK total 1⟩ :: post.tail
                                 freeList := fl1 })
          else
            (some ptr, st)
        else if curr = 0 then
          if remaining_size < 0 then
            let r := extend_heap st (max (-remaining_size).toNat 4096 / 4)
            match r.1 with
            | none => (none, r.2)
            | some _ =>
              let ext := max (-remaining_size).toNat 4096
              let total := ((new_blk_size : Int) + remaining_size + ext).toNat
              match splitAtAddr 16 r.2.blocks ptr with
              | none => (some ptr, r.2)
              | some (pre1, _, post1) =>
                (some ptr, { r.2 with blocks := pre1 ++ ⟨PACK total 1, PACK total 1⟩ :: post1 })
          else
            let total := ((new_blk_size : Int) + remaining_size).toNat
            (some ptr, { st with blocks := pre ++ ⟨PACK total 1, PACK total 1⟩ :: post })
        else
          let r := mm_malloc st (new_blk_size - 8)
          let st2 := mm_free r.2 ptr
          (r.1, st2)
      else (some ptr, st)

/-- `mm_init()`: `mem_sbrk(4*WSIZE)` for the pad word, prologue and
epilogue; reset `free_list_tail`; extend the heap by `CHUNKSIZE/WSIZE`
words.  Either `mem_sbrk` failure makes `mm_init` fail. -/
def mm_init (avail : Nat) : Option HeapState :=
  if avail < 16 then none
  else
    let st0 : HeapState := { blocks := [], freeList := [], avail := avail - 16 }
    match extend_heap st0 (4096 / 4) with
    | (none, _) => none
    | (some _, st1) => some st1

/-- An observable operation of the claims: `acquire` is `mm_malloc`,
`release p` is `mm_free` on a pointer previously returned by acquire and
still allocated (the guard encodes that precondition; `mm_free` on any
other pointer is undefined behaviour in the C). -/
inductive Op where
  | acquire : Nat → Op
  | release : Nat → Op
deriving Repr, DecidableEq

/-- One operation against the allocator state. -/
def step (st : HeapState) : Op → HeapState
  | .acquire n => (mm_malloc st n).2
  | .release p => if isAllocatedAt st p then mm_free st p else st

/-- A finite sequence of operations. -/
def run (st : HeapState) : List Op → HeapState
  | [] => st
  | op :: ops => run (step st op) ops

/-! ### Machine-width codecs analysed by the numerical claims -/

/-- The two link words stored at the start of a free block's payload.  The
C code declares them as `unsigned int` (32 bits) and casts pointers into
them: `SET_PREV_PTR(bp, addr)` is `*(unsigned int *)bp = (unsigned int)addr`. -/
structure FreeLinks where
  prev : Nat
  next : Nat
deriving Repr, DecidableEq

/-- `SET_PREV_PTR(bp, addr)`: store the address into the 32-bit field. -/
def SET_PREV_PTR (l : FreeLinks) (addr : Nat) : FreeLinks :=
  { l with prev := addr % 4294967296 }

/-- `GET_PREV_PTR(bp)`: read the 32-bit field back (it is then used as a
pointer). -/
def GET_PREV_PTR (l : FreeLinks) : Nat := l.prev

/-- `SET_NEXT_PTR(bp, addr)`: store the address into the 32-bit field. -/
def SET_NEXT_PTR (l : FreeLinks) (addr : Nat) : FreeLinks :=
  { l with next := addr % 4294967296 }

/-- `GET_NEXT_PTR(bp)`: read the 32-bit field back. -/
def GET_NEXT_PTR (l : FreeLinks) : Nat := l.next

/-- `ALIGN` computed in `size_t` (64-bit) arithmetic: the argument is
reduced mod 2^64 and `& ~0x7` clears the low three bits. -/
def ALIGN_szt (size : Nat) : Nat :=
  ((size + 7) % 18446744073709551616) - ((size + 7) % 18446744073709551616) % 8

/-- Conversion of an unsigned value to `int` (32-bit two's complement),
as performed by `int adjusted_size = ALIGN(size + DSIZE);`. -/
def toInt32 (w : Nat) : Int :=
  if w % 4294967296 < 2147483648 then (w % 4294967296 : Nat)
  else (w % 4294967296 : Nat) - 4294967296

/-- The value of `int adjusted_size = ALIGN(size + DSIZE);` in `mm_malloc`,
with the `size_t` wrap-around and the `size_t` → `int` truncation. -/
def adjusted_size_c (size : Nat) : Int :=
  toInt32 (ALIGN_szt ((size + 8) % 18446744073709551616))

/-- `new_blk_size` as computed by `mm_realloc`. -/
def new_blk_size_of (size : Nat) : Nat :=
  if size ≤ 8 then 16 else ALIGN (size + 8)

/-- The byte count handed to `memcpy` in `mm_realloc`'s relocation
fallback: `MIN(size, new_blk_size)`. -/
def realloc_copy_bytes (size new_blk_size : Nat) : Nat := min size new_blk_size

/-! ### Concrete states used by the claims (all reachable from `mm_init`) -/

/-- The state right after a successful `mm_init` with 4112 bytes of arena
capacity: one free 4096-byte block at payload address 16. -/
def stInit : HeapState := ⟨[⟨4096, 4096⟩], [16], 0⟩

/-- After `mm_init` and `acquire 4088`: the whole arena is one allocated
block at 16, the free list is empty, `mem_sbrk` is exhausted. -/
def stFull : HeapState := ⟨[⟨4097, 4097⟩], [], 0⟩

/-- After `mm_init` and `acquire 4056`: an allocated 4064-byte block at 16
followed by a free 32-byte block at 4080. -/
def stSplitTail : HeapState := ⟨[⟨4065, 4065⟩, ⟨32, 32⟩], [4080], 0⟩

/-- After `mm_init` (8208 bytes of capacity) and `acquire 96; acquire 3984`:
an allocated 104-byte block at 16 (96 payload bytes) followed by an
allocated block, with 4096 bytes of arena growth still available. -/
def stTwoAlloc : HeapState := ⟨[⟨105, 105⟩, ⟨3993, 3993⟩], [], 4096⟩

/-- After `mm_init` and `acquire 100; acquire 50; release 16`: the freed
112-byte block A at 16, allocated block B, and the free 3920-byte
remainder, free list `[16, 3920-block]` from the tail. -/
def stBest : HeapState := ⟨[⟨112, 112⟩, ⟨65, 65⟩, ⟨3920, 3920⟩], [16, 192], 0⟩

/-! ### Best-fit search lemmas -/

theorem find_fit_walk_some_mem {bs : List Blk} {k bp : Nat} :
    ∀ {fl : List Nat}, find_fit_walk bs k fl = some bp → bp ∈ fl ∧ k ≤ sizeAt bs bp
  | [], h => by simp [find_fit_walk] at h
  | p :: rest, h => by
      by_cases hc : k > sizeAt bs p
      · have h' : find_fit_walk bs k rest = some bp := by
          simpa [find_fit_walk, hc] using h
        rcases find_fit_walk_some_mem h' with ⟨h1, h2⟩
        exact ⟨List.mem_cons_of_mem _ h1, h2⟩
      · have hpb : p = bp := by simpa [find_fit_walk, hc] using h
        subst hpb
        exact ⟨List.mem_cons_self _ _, Nat.le_of_not_lt hc⟩

theorem find_fit_walk_min {bs : List Blk} {k bp : Nat} :
    ∀ {fl : List Nat}, List.Pairwise (fun x y => sizeAt bs x ≤ sizeAt bs y) fl →
      find_fit_walk bs k fl = some bp →
      ∀ c ∈ fl, k ≤ sizeAt bs c → sizeAt bs bp ≤ sizeAt bs c
  | [], _, h => by simp [find_fit_walk] at h
  | p :: rest, hp, h => by
      rcases List.pairwise_cons.mp hp with ⟨hle, hrest⟩
      by_cases hc : k > sizeAt bs p
      · have h' : find_fit_walk bs k rest = some bp := by
          simpa [find_fit_walk, hc] using h
        intro c hc' hk
        rcases List.mem_cons.mp hc' with rfl | hcr
        · omega
        · exact find_fit_walk_min hrest h' c hcr hk
      · have hpb : p = bp := by simpa [find_fit_walk, hc] using h
        subst hpb
        intro c hc' hk
        rcases List.mem_cons.mp hc' with rfl | hcr
        · exact le_refl _
        · exact hle c hcr

theorem find_fit_walk_exists {bs : List Blk} {k : Nat} :
    ∀ {fl : List Nat}, (∃ c ∈ fl, k ≤ sizeAt bs c) →
      ∃ bp, find_fit_walk bs k fl = some bp
  | [], h => by simp at h
  | p :: rest, h => by
      by_cases hc : k > sizeAt bs p
      · rcases h with ⟨c, hc', hk⟩
        rcases List.mem_cons.mp hc' with rfl | hcr
        · omega
        · have hr := @find_fit_walk_exists bs k rest ⟨c, hcr, hk⟩
          simpa [find_fit_walk, hc] using hr
      · exact ⟨p, by simp [find_fit_walk, hc]⟩

/-- What the fit search guarantees when some free block fits: the walk from
the tail returns a fitting block that is smallest among all fitting free
blocks, and `find_fitting_blk` returns it without touching the state (no
arena growth). -/
def best_fit_ok (bs : List Blk) (fl : List Nat) (k : Nat) : Prop :=
  ∃ bp, find_fit_walk bs k fl = some bp ∧ bp ∈ fl ∧ k ≤ sizeAt bs bp ∧
    (∀ c ∈ fl, k ≤ sizeAt bs c → sizeAt bs bp ≤ sizeAt bs c) ∧
    ∀ avail, find_fitting_blk ⟨bs, fl, avail⟩ k = (some bp, ⟨bs, fl, avail⟩)

/-! ### Claim theorems: concrete and arithmetic claims -/

/-- Claim C1 (code evaluated at the failing input): starting from
`mm_init 4112` and `acquire 4056`, block A at 16 has size 4064 and is
followed by a free 32-byte block; `resize(A, 8000)` needs 8008 bytes, and
current+following = 4096 does not meet it.  The code neither grows the
arena nor fails: it returns the original pointer with the whole state
unchanged (the block still 4064 bytes), because the growth branch is
guarded by the impossible test `GET_SIZE(HDRP(ptr)) == 0`. -/
theorem claim_C1 :
    mm_init 4112 = some stInit ∧
    run stInit [Op.acquire 4056] = stSplitTail ∧
    mm_realloc stSplitTail 16 8000 = (some 16, stSplitTail) := by
  refine ⟨by decide, by decide, by decide⟩

/-- Claim C2 counterexample: in the reachable state `stFull` the block at
16 was returned by acquire and is still allocated, yet `resize(16, 0)`
leaves the state completely unchanged — the block is still marked
allocated and the free-list index is still empty, so the claimed
release-like behaviour (mark free, coalesce, insert) did not happen. -/
theorem claim_C2_cex :
    mm_init 4112 = some stInit ∧
    run stInit [Op.acquire 4088] = stFull ∧
    mm_realloc stFull 16 0 = (none, stFull) ∧
    isAllocatedAt stFull 16 = true ∧
    stFull.freeList = [] := by
  refine ⟨by decide, by decide, by decide, by decide, by decide⟩

/-- Claim C2 as amended: `resize(p, 0)` returns no block, and the heap —
blocks and free-list index — is left exactly as it was: the block is not
released. -/
theorem claim_C2 : ∀ (st : HeapState) (p : Nat), mm_realloc st p 0 = (none, st) := by
  intro st p
  rfl

/-- Claim C5 (code evaluated at the failing input): in the reachable state
`stTwoAlloc` the block at 16 has size 104, i.e. a 96-byte payload, and its
successor is allocated, so `resize(16, 100)` takes the relocation
fallback (the block moves to 4112).  The `memcpy` count is
`MIN(size, new_blk_size) = min 100 112 = 100` bytes — more than the
96-byte old payload, not the claimed `min(old payload, new_size) = 96`. -/
theorem claim_C5 :
    mm_init 8208 = some ⟨[⟨4096, 4096⟩], [16], 4096⟩ ∧
    run ⟨[⟨4096, 4096⟩], [16], 4096⟩ [Op.acquire 96, Op.acquire 3984] = stTwoAlloc ∧
    (mm_realloc stTwoAlloc 16 100).1 = some 4112 ∧
    realloc_copy_bytes 100 (new_blk_size_of 100) = 100 ∧
    104 - 8 < 100 := by
  refine ⟨by decide, by decide, by decide, by decide, by decide⟩

/-- Claim C6 (code evaluated at the failing input): in the reachable state
`stFull` (arena exhausted), `resize(16, 8000)` takes the relocation
fallback, its inner `acquire` fails, and the call returns a failure — but
the old block has been released anyway (the C code also passes the `NULL`
result straight to `memcpy`): in the result state the block at 16 is
marked free and sits in the free-list index, so the state is mutated. -/
theorem claim_C6 :
    mm_init 4112 = some stInit ∧
    run stInit [Op.acquire 4088] = stFull ∧
    mm_realloc stFull 16 8000 = (none, stInit) ∧
    isAllocatedAt stFull 16 = true ∧
    isAllocatedAt stInit 16 = false ∧
    stInit ≠ stFull := by
  refine ⟨by decide, by decide, by decide, by decide, by decide, by decide⟩

/-- Claim C8: acquiring size 0 is rejected: `mm_malloc` returns no pointer
and the heap state is unchanged, for every state. -/
theorem claim_C8 : ∀ st : HeapState, mm_malloc st 0 = (none, st) := by
  intro st
  rfl

/-- Claim C9 counterexample: at `requested_size = 2^31 - 8 = 2147483640`
the adjusted block size `int adjusted_size = ALIGN(size + DSIZE)` is the
truncated value `-2^31`: it is not `requested_size + 8` rounded up to 8
(which is `2^31`), and it is not at least the 16-byte minimum. -/
theorem claim_C9_cex :
    adjusted_size_c 2147483640 = -2147483648 ∧
    adjusted_size_c 2147483640 ≠ 2147483648 ∧
    ¬ (16 : Int) ≤ adjusted_size_c 2147483640 := by
  refine ⟨by decide, by decide, by decide⟩

/-- Claim C9 as amended: for every `requested_size` between 1 and
`2^31 - 16 = 2147483632` the adjusted block size computed by acquire
equals `requested_size + 8` (header+footer overhead) rounded up to the
8-byte alignment unit, is a multiple of 8, and is at least the 16-byte
minimum block size even though no explicit floor is applied; above that
bound the `int` truncation breaks the claim (see the counterexample). -/
theorem claim_C9 :
    ∀ size : Nat, 1 ≤ size → size ≤ 2147483632 →
      adjusted_size_c size = ((size + 8 + 7) / 8) * 8 ∧
      adjusted_size_c size % 8 = 0 ∧
      16 ≤ adjusted_size_c size := by
  intro size h1 h2
  have hm : (size + 8) % 18446744073709551616 = size + 8 := Nat.mod_eq_of_lt (by omega)
  have hm2 : (size + 8 + 7) % 18446744073709551616 = size + 15 := Nat.mod_eq_of_lt (by omega)
  have ha : ALIGN_szt ((size + 8) % 18446744073709551616) = (size + 15) - (size + 15) % 8 := by
    rw [ALIGN_szt, hm, hm2]
  have hmod : ((size + 15) - (size + 15) % 8) % 4294967296 = (size + 15) - (size + 15) % 8 :=
    Nat.mod_eq_of_lt (by omega)
  have hval : adjusted_size_c size = (((size + 15) - (size + 15) % 8 : Nat) : Int) := by
    rw [adjusted_size_c, ha, toInt32, hmod, if_pos (by omega)]
  refine ⟨?_, ?_, ?_⟩
  · rw [hval]
    have h3 : ((size + 8 + 7) / 8) * 8 = (size + 15) - (size + 15) % 8 := by omega
    rw [← h3]
    push_cast
    ring
  · rw [hval]
    omega
  · rw [hval]
    omega

/-- Claim C9 witness: at `requested_size = 100` the adjusted size is 112 =
(100 + 8) rounded up to 8, a multiple of 8 and at least 16. -/
theorem claim_C9_witness :
    (1 ≤ 100 ∧ 100 ≤ 2147483632) ∧
    (adjusted_size_c 100 = ((100 + 8 + 7) / 8) * 8 ∧
     adjusted_size_c 100 % 8 = 0 ∧
     16 ≤ adjusted_size_c 100) :=
  ⟨⟨by decide, by decide⟩, claim_C9 100 (by decide) (by decide)⟩

/-- Claim C10: storing an address in a free block's forward or backward
link field and reading it back yields the address modulo 2^32 (4294967296)
— exact whenever the address fits in 32 bits, and different from the
stored address for some address of 2^32 or more. -/
theorem claim_C10 :
    (∀ (l : FreeLinks) (a : Nat), GET_PREV_PTR (SET_PREV_PTR l a) = a % 4294967296) ∧
    (∀ (l : FreeLinks) (a : Nat), GET_NEXT_PTR (SET_NEXT_PTR l a) = a % 4294967296) ∧
    (∀ (l : FreeLinks) (a : Nat), a < 4294967296 → GET_PREV_PTR (SET_PREV_PTR l a) = a ∧
       GET_NEXT_PTR (SET_NEXT_PTR l a) = a) ∧
    (∃ a : Nat, 4294967296 ≤ a ∧ ∀ l : FreeLinks, GET_PREV_PTR (SET_PREV_PTR l a) ≠ a) := by
  have hgen : ∀ (l : FreeLinks) (a : Nat),
      GET_PREV_PTR (SET_PREV_PTR l a) = a % 4294967296 := fun l a => rfl
  have hgen2 : ∀ (l : FreeLinks) (a : Nat),
      GET_NEXT_PTR (SET_NEXT_PTR l a) = a % 4294967296 := fun l a => rfl
  refine ⟨hgen, hgen2, ?_, ?_⟩
  · intro l a h
    rw [hgen, hgen2]
    exact ⟨Nat.mod_eq_of_lt h, Nat.mod_eq_of_lt h⟩
  · refine ⟨4294967296, le_refl _, fun l => ?_⟩
    rw [hgen, Nat.mod_self]
    omega

/-- Claim C10 witness: a 32-bit address round-trips exactly through the
link fields. -/
theorem claim_C10_witness :
    GET_PREV_PTR (SET_PREV_PTR ⟨0, 0⟩ 12345) = 12345 ∧
    GET_NEXT_PTR (SET_NEXT_PTR ⟨0, 0⟩ 12345) = 12345 :=
  claim_C10.2.2.1 ⟨0, 0⟩ 12345 (by omega)

/-! ### Structural invariant: definitions -/

/-- Physically adjacent blocks may never both be free. -/
def AdjOK (x y : Blk) : Prop := GET_ISALLOCATED x.hdr = 1 ∨ GET_ISALLOCATED y.hdr = 1

/-- A well-formed boundary-tagged block: the footer copies the header, the
block is at least the 16-byte minimum, and the packed word carries only
the allocated bit besides the (multiple-of-8) size. -/
def BlkWF (b : Blk) : Prop := b.ftr = b.hdr ∧ 16 ≤ b.hdr ∧ b.hdr % 8 ≤ 1

/-- Free-block payload addresses of the whole arena. -/
def freeAddrs (bs : List Blk) : List Nat := freeAddrsFrom 16 bs

/-- The allocator's global structural invariant, as checked between
operations: (blocks) every block is well formed; (adjacency) no two
physically adjacent blocks are both free; (index) the free list is
duplicate-free and holds exactly the payload addresses of the free blocks,
in ascending size order from the tail. -/
def WF (st : HeapState) : Prop :=
  (∀ b ∈ st.blocks, BlkWF b) ∧
  List.Chain' AdjOK st.blocks ∧
  st.freeList.Nodup ∧
  (∀ a, a ∈ st.freeList ↔ a ∈ freeAddrs st.blocks) ∧
  List.Pairwise (fun x y => sizeAt st.blocks x ≤ sizeAt st.blocks y) st.freeList

theorem GET_SIZE_PACK {s a : Nat} (hs : s % 8 = 0) (ha : a ≤ 1) :
    GET_SIZE (PACK s a) = s := by
  unfold GET_SIZE PACK
  omega

theorem GET_ISALLOCATED_PACK {s a : Nat} (hs : s % 8 = 0) (ha : a ≤ 1) :
    GET_ISALLOCATED (PACK s a) = a := by
  unfold GET_ISALLOCATED PACK
  omega

theorem BlkWF_pack {s a : Nat} (h16 : 16 ≤ s) (hs : s % 8 = 0) (ha : a ≤ 1) :
    BlkWF ⟨PACK s a, PACK s a⟩ := by
  refine ⟨rfl, ?_, ?_⟩
  · show 16 ≤ PACK s a
    unfold PACK
    omega
  · show PACK s a % 8 ≤ 1
    unfold PACK
    omega

theorem BlkWF.size_ge {b : Blk} (h : BlkWF b) : 16 ≤ GET_SIZE b.hdr := by
  unfold BlkWF at h
  unfold GET_SIZE
  omega

theorem GET_SIZE_mod (w : Nat) : GET_SIZE w % 8 = 0 := by
  unfold GET_SIZE
  omega

theorem BlkWF.hdr_eq {b : Blk} (h : BlkWF b) :
    b.hdr = PACK (GET_SIZE b.hdr) (GET_ISALLOCATED b.hdr) := by
  unfold BlkWF at h
  unfold GET_SIZE GET_ISALLOCATED PACK
  omega

theorem BlkWF.ftr_eq {b : Blk} (h : BlkWF b) : b.ftr = b.hdr := h.1

theorem GET_ISALLOCATED_le (w : Nat) : GET_ISALLOCATED w ≤ 1 := by
  unfold GET_ISALLOCATED
  omega

/-! ### Address arithmetic lemmas -/

theorem sumSizes_nil : sumSizes [] = 0 := rfl

theorem sumSizes_cons (b : Blk) (bs : List Blk) :
    sumSizes (b :: bs) = GET_SIZE b.hdr + sumSizes bs := by
  unfold sumSizes
  simp

theorem sumSizes_append (xs ys : List Blk) :
    sumSizes (xs ++ ys) = sumSizes xs + sumSizes ys := by
  unfold sumSizes
  simp

theorem blkAtFrom_append (s : Nat) (xs ys : List Blk) (a : Nat) :
    blkAtFrom s (xs ++ ys) a =
      match blkAtFrom s xs a with
      | some b => some b
      | none => blkAtFrom (s + sumSizes xs) ys a := by
  induction xs generalizing s with
  | nil => simp [blkAtFrom, sumSizes_nil]
  | cons x xs ih =>
    by_cases h : a = s
    · simp [blkAtFrom, h]
    · have h1 : blkAtFrom s ((x :: xs) ++ ys) a = blkAtFrom (s + GET_SIZE x.hdr) (xs ++ ys) a := by
        simp [blkAtFrom, h]
      have h2 : blkAtFrom s (x :: xs) a = blkAtFrom (s + GET_SIZE x.hdr) xs a := by
        simp [blkAtFrom, h]
      rw [h1, h2, ih, sumSizes_cons]
      have h3 : s + GET_SIZE x.hdr + sumSizes xs = s + (GET_SIZE x.hdr + sumSizes xs) := by omega
      rw [h3]

theorem blkAtFrom_isSome_iff (s : Nat) (bs : List Blk) (a : Nat) :
    (blkAtFrom s bs a).isSome ↔ a ∈ bpAddrs s bs := by
  induction bs generalizing s with
  | nil => simp [blkAtFrom, bpAddrs]
  | cons b bs ih =>
    by_cases h : a = s
    · simp [blkAtFrom, bpAddrs, h]
    · simp [blkAtFrom, bpAddrs, h, ih]

theorem blkAtFrom_none_iff (s : Nat) (bs : List Blk) (a : Nat) :
    blkAtFrom s bs a = none ↔ a ∉ bpAddrs s bs := by
  rw [← blkAtFrom_isSome_iff]
  cases blkAtFrom s bs a <;> simp

theorem bpAddrs_ge (s : Nat) (bs : List Blk) : ∀ a ∈ bpAddrs s bs, s ≤ a := by
  induction bs generalizing s with
  | nil => simp [bpAddrs]
  | cons b bs ih =>
    intro a ha
    rcases List.mem_cons.mp ha with rfl | h
    · exact le_refl _
    · exact le_trans (Nat.le_add_right _ _) (ih _ _ h)

theorem bpAddrs_lt (s : Nat) (bs : List Blk) (hpos : ∀ b ∈ bs, 1 ≤ GET_SIZE b.hdr) :
    ∀ a ∈ bpAddrs s bs, a < s + sumSizes bs := by
  induction bs generalizing s with
  | nil => simp [bpAddrs]
  | cons b bs ih =>
    intro a ha
    have hb : 1 ≤ GET_SIZE b.hdr := hpos b (by simp)
    rcases List.mem_cons.mp ha with rfl | h
    · rw [sumSizes_cons]
      have : 0 ≤ sumSizes bs := Nat.zero_le _
      omega
    · have := ih (s + GET_SIZE b.hdr) (fun x hx => hpos x (List.mem_cons_of_mem _ hx)) a h
      rw [sumSizes_cons]
      omega

theorem splitAtAddr_eq {a : Nat} {b : Blk} {post : List Blk} :
    ∀ {s : Nat} {bs : List Blk} {pre : List Blk},
      splitAtAddr s bs a = some (pre, b, post) →
      bs = pre ++ b :: post ∧ a = s + sumSizes pre := by
  intro s bs
  induction bs generalizing s with
  | nil => intro pre h; simp [splitAtAddr] at h
  | cons x xs ih =>
    intro pre h
    by_cases hx : a = s
    · simp [splitAtAddr, hx] at h
      obtain ⟨rfl, rfl, rfl⟩ := h
      simp [sumSizes_nil, hx]
    · simp only [splitAtAddr, if_neg hx, Option.map_eq_some'] at h
      obtain ⟨⟨p, c, q⟩, hsp, heq⟩ := h
      simp only [Prod.mk.injEq] at heq
      obtain ⟨h1, h2, h3⟩ := heq
      subst h1; subst h2; subst h3
      obtain ⟨hb, ha⟩ := ih hsp
      constructor
      · rw [List.cons_append, ← hb]
      · rw [sumSizes_cons]; omega

theorem splitAtAddr_at {b : Blk} {post : List Blk} :
    ∀ {s : Nat} {pre : List Blk}, (∀ x ∈ pre, 1 ≤ GET_SIZE x.hdr) →
      splitAtAddr s (pre ++ b :: post) (s + sumSizes pre) = some (pre, b, post) := by
  intro s pre
  induction pre generalizing s with
  | nil => intro _; simp [splitAtAddr, sumSizes_nil]
  | cons x xs ih =>
    intro hpos
    have hx1 : 1 ≤ GET_SIZE x.hdr := hpos x (by simp)
    have hne : s + sumSizes (x :: xs) ≠ s := by rw [sumSizes_cons]; omega
    have hstep : splitAtAddr s ((x :: xs) ++ b :: post) (s + sumSizes (x :: xs)) =
        (splitAtAddr (s + GET_SIZE x.hdr) (xs ++ b :: post) (s + sumSizes (x :: xs))).map
          (fun t => (x :: t.1, t.2.1, t.2.2)) := by
      simp [splitAtAddr, hne]
    rw [hstep]
    have harg : s + sumSizes (x :: xs) = (s + GET_SIZE x.hdr) + sumSizes xs := by
      rw [sumSizes_cons]; omega
    rw [harg, ih (fun y hy => hpos y (List.mem_cons_of_mem _ hy))]
    rfl

theorem blkAtFrom_of_split {a : Nat} {b : Blk} {post : List Blk} :
    ∀ {s : Nat} {bs : List Blk} {pre : List Blk},
      splitAtAddr s bs a = some (pre, b, post) → blkAtFrom s bs a = some b := by
  intro s bs
  induction bs generalizing s with
  | nil => intro pre h; simp [splitAtAddr] at h
  | cons x xs ih =>
    intro pre h
    by_cases hx : a = s
    · simp [splitAtAddr, hx] at h
      obtain ⟨-, rfl, -⟩ := h
      simp [blkAtFrom, hx]
    · simp only [splitAtAddr, if_neg hx, Option.map_eq_some'] at h
      obtain ⟨⟨p, c, q⟩, hsp, heq⟩ := h
      simp only [Prod.mk.injEq] at heq
      obtain ⟨-, h2, h3⟩ := heq
      subst h2; subst h3
      simp only [blkAtFrom, if_neg hx]
      exact ih hsp

theorem splitAtAddr_isSome_iff (s : Nat) (bs : List Blk) (a : Nat) :
    (splitAtAddr s bs a).isSome ↔ a ∈ bpAddrs s bs := by
  induction bs generalizing s with
  | nil => simp [splitAtAddr, bpAddrs]
  | cons b bs ih =>
    by_cases h : a = s
    · simp [splitAtAddr, bpAddrs, h]
    · simp [splitAtAddr, bpAddrs, h, ih]

theorem freeAddrsFrom_subset (s : Nat) (bs : List Blk) (a : Nat) :
    a ∈ freeAddrsFrom s bs → a ∈ bpAddrs s bs := by
  induction bs generalizing s with
  | nil => simp [freeAddrsFrom]
  | cons b bs ih =>
    by_cases hb : GET_ISALLOCATED b.hdr = 0
    · simp only [freeAddrsFrom, if_pos hb, bpAddrs, List.mem_cons]
      rintro (rfl | h)
      · exact Or.inl rfl
      · exact Or.inr (ih _ h)
    · simp only [freeAddrsFrom, if_neg hb, bpAddrs, List.mem_cons]
      intro h
      exact Or.inr (ih _ h)

theorem freeAddrsFrom_append (s : Nat) (xs ys : List Blk) :
    freeAddrsFrom s (xs ++ ys) =
      freeAddrsFrom s xs ++ freeAddrsFrom (s + sumSizes xs) ys := by
  induction xs generalizing s with
  | nil => simp [freeAddrsFrom, sumSizes_nil]
  | cons x xs ih =>
    have harg : s + sumSizes (x :: xs) = (s + GET_SIZE x.hdr) + sumSizes xs := by
      rw [sumSizes_cons]; omega
    by_cases hx : GET_ISALLOCATED x.hdr = 0
    · have h1 : freeAddrsFrom s ((x :: xs) ++ ys) =
          s :: freeAddrsFrom (s + GET_SIZE x.hdr) (xs ++ ys) := by
        simp [freeAddrsFrom, hx]
      have h2 : freeAddrsFrom s (x :: xs) = s :: freeAddrsFrom (s + GET_SIZE x.hdr) xs := by
        simp [freeAddrsFrom, hx]
      rw [h1, h2, ih, harg, List.cons_append]
    · have h1 : freeAddrsFrom s ((x :: xs) ++ ys) =
          freeAddrsFrom (s + GET_SIZE x.hdr) (xs ++ ys) := by
        simp [freeAddrsFrom, hx]
      have h2 : freeAddrsFrom s (x :: xs) = freeAddrsFrom (s + GET_SIZE x.hdr) xs := by
        simp [freeAddrsFrom, hx]
      rw [h1, h2, ih, harg]

theorem mem_freeAddrsFrom (s : Nat) (bs : List Blk) (a : Nat)
    (hpos : ∀ b ∈ bs, 1 ≤ GET_SIZE b.hdr) :
    a ∈ freeAddrsFrom s bs ↔
      ∃ b, blkAtFrom s bs a = some b ∧ GET_ISALLOCATED b.hdr = 0 := by
  induction bs generalizing s with
  | nil => simp [freeAddrsFrom, blkAtFrom]
  | cons x xs ih =>
    have hpos2 : ∀ b ∈ xs, 1 ≤ GET_SIZE b.hdr :=
      fun y hy => hpos y (List.mem_cons_of_mem _ hy)
    by_cases hx : a = s
    · subst hx
      have hnotrest : a ∉ freeAddrsFrom (a + GET_SIZE x.hdr) xs := by
        intro hmem
        have h1 := bpAddrs_ge _ _ _ (freeAddrsFrom_subset _ _ _ hmem)
        have hx1 : 1 ≤ GET_SIZE x.hdr := hpos x (by simp)
        omega
      by_cases hxf : GET_ISALLOCATED x.hdr = 0
      · simp [freeAddrsFrom, blkAtFrom, hxf]
      · simp only [freeAddrsFrom, if_neg hxf, blkAtFrom, if_pos rfl]
        constructor
        · intro h; exact absurd h hnotrest
        · rintro ⟨b, hb, hbf⟩
          obtain rfl : x = b := by simpa using hb
          exact absurd hbf hxf
    · by_cases hxf : GET_ISALLOCATED x.hdr = 0
      · simp only [freeAddrsFrom, if_pos hxf, List.mem_cons, blkAtFrom, if_neg hx]
        rw [ih _ hpos2]
        constructor
        · rintro (rfl | h)
          · exact absurd rfl hx
          · exact h
        · intro h; exact Or.inr h
      · simp only [freeAddrsFrom, if_neg hxf, blkAtFrom, if_neg hx]
        exact ih _ hpos2

/-! ### Free-list insert/remove lemmas -/

theorem mem_insert_node (bs : List Blk) (fl : List Nat) (bp k a : Nat) :
    a ∈ insert_node bs fl bp k ↔ a = bp ∨ a ∈ fl := by
  induction fl with
  | nil => simp [insert_node]
  | cons p rest ih =>
    by_cases h : k > sizeAt bs p
    · simp only [insert_node, if_pos h, List.mem_cons, ih]
      tauto
    · simp only [insert_node, if_neg h, List.mem_cons]

theorem nodup_insert_node (bs : List Blk) (fl : List Nat) (bp k : Nat)
    (hnd : fl.Nodup) (hnm : bp ∉ fl) : (insert_node bs fl bp k).Nodup := by
  induction fl with
  | nil => simp [insert_node]
  | cons p rest ih =>
    rcases List.nodup_cons.mp hnd with ⟨hp, hrest⟩
    by_cases h : k > sizeAt bs p
    · simp only [insert_node, if_pos h]
      refine List.nodup_cons.mpr ⟨?_, ih hrest (fun hm => hnm (List.mem_cons_of_mem _ hm))⟩
      intro hmem
      rcases (mem_insert_node bs rest bp k p).mp hmem with rfl | hmem2
      · exact hnm (List.mem_cons_self _ _)
      · exact hp hmem2
    · simp only [insert_node, if_neg h]
      exact List.nodup_cons.mpr ⟨hnm, hnd⟩

theorem pairwise_insert_node (bs : List Blk) (fl : List Nat) (bp : Nat)
    (hs : List.Pairwise (fun x y => sizeAt bs x ≤ sizeAt bs y) fl) :
    List.Pairwise (fun x y => sizeAt bs x ≤ sizeAt bs y)
      (insert_node bs fl bp (sizeAt bs bp)) := by
  induction fl with
  | nil => simp [insert_node]
  | cons p rest ih =>
    rcases List.pairwise_cons.mp hs with ⟨hp, hrest⟩
    by_cases h : sizeAt bs bp > sizeAt bs p
    · simp only [insert_node, if_pos h]
      refine List.pairwise_cons.mpr ⟨?_, ih hrest⟩
      intro y hy
      rcases (mem_insert_node bs rest bp _ y).mp hy with rfl | hy2
      · omega
      · exact hp y hy2
    · simp only [insert_node, if_neg h]
      refine List.pairwise_cons.mpr ⟨?_, hs⟩
      intro y hy
      rcases List.mem_cons.mp hy with rfl | hy2
      · omega
      · have := hp y hy2
        omega

theorem remove_node_eq_erase (fl : List Nat) (bp : Nat) :
    remove_node fl bp = fl.erase bp := by
  induction fl with
  | nil => rfl
  | cons p rest ih =>
    by_cases h : p = bp
    · subst h
      simp [remove_node, List.erase_cons_head]
    · have hba : ¬(p == bp) = true := by simp [h]
      rw [List.erase_cons_tail (by simpa using hba)]
      simp only [remove_node, if_neg h, ih]

theorem mem_remove_node {fl : List Nat} {bp a : Nat} (hnd : fl.Nodup) :
    a ∈ remove_node fl bp ↔ a ≠ bp ∧ a ∈ fl := by
  rw [remove_node_eq_erase]
  exact hnd.mem_erase_iff

theorem nodup_remove_node {fl : List Nat} (bp : Nat) (hnd : fl.Nodup) :
    (remove_node fl bp).Nodup := by
  rw [remove_node_eq_erase]
  exact hnd.erase bp

theorem pairwise_remove_node {R : Nat → Nat → Prop} {fl : List Nat} (bp : Nat)
    (hp : List.Pairwise R fl) : List.Pairwise R (remove_node fl bp) := by
  rw [remove_node_eq_erase]
  exact hp.sublist (List.erase_sublist bp fl)

theorem not_mem_remove_node {fl : List Nat} (bp : Nat) (hnd : fl.Nodup) :
    bp ∉ remove_node fl bp := by
  rw [remove_node_eq_erase]
  exact hnd.not_mem_erase

theorem mem_of_mem_remove_node {fl : List Nat} {bp a : Nat} :
    a ∈ remove_node fl bp → a ∈ fl := by
  rw [remove_node_eq_erase]
  exact List.mem_of_mem_erase

/-! ### Splice stability lemmas -/

theorem blkAtFrom_splice (pre mid midN post : List Blk) (a : Nat)
    (hS : sumSizes mid = sumSizes midN)
    (hm : blkAtFrom (16 + sumSizes pre) mid a = none)
    (hmN : blkAtFrom (16 + sumSizes pre) midN a = none) :
    blkAtFrom 16 (pre ++ (mid ++ post)) a = blkAtFrom 16 (pre ++ (midN ++ post)) a := by
  rw [blkAtFrom_append 16 pre (mid ++ post) a, blkAtFrom_append 16 pre (midN ++ post) a]
  cases hpre : blkAtFrom 16 pre a with
  | some c => rfl
  | none =>
    simp only
    rw [blkAtFrom_append _ mid post a, blkAtFrom_append _ midN post a, hm, hmN, hS]

theorem sizeAt_splice (pre mid midN post : List Blk) (a : Nat)
    (hS : sumSizes mid = sumSizes midN)
    (hm : blkAtFrom (16 + sumSizes pre) mid a = none)
    (hmN : blkAtFrom (16 + sumSizes pre) midN a = none) :
    sizeAt (pre ++ (mid ++ post)) a = sizeAt (pre ++ (midN ++ post)) a := by
  unfold sizeAt
  rw [blkAtFrom_splice pre mid midN post a hS hm hmN]

theorem pairwise_transfer (pre mid midN post : List Blk) (fl2 : List Nat)
    (hS : sumSizes mid = sumSizes midN)
    (hnone : ∀ a ∈ fl2, blkAtFrom (16 + sumSizes pre) mid a = none)
    (hnoneN : ∀ a ∈ fl2, blkAtFrom (16 + sumSizes pre) midN a = none)
    (hsort : List.Pairwise
      (fun x y => sizeAt (pre ++ (mid ++ post)) x ≤ sizeAt (pre ++ (mid ++ post)) y) fl2) :
    List.Pairwise
      (fun x y => sizeAt (pre ++ (midN ++ post)) x ≤ sizeAt (pre ++ (midN ++ post)) y) fl2 := by
  refine hsort.imp_of_mem ?_
  intro a c ha hc hle
  rw [← sizeAt_splice pre mid midN post a hS (hnone a ha) (hnoneN a ha),
      ← sizeAt_splice pre mid midN post c hS (hnone c hc) (hnoneN c hc)]
  exact hle

theorem freeAddrs_decomp (pre mid post : List Blk) (a : Nat) :
    a ∈ freeAddrs (pre ++ (mid ++ post)) ↔
      a ∈ freeAddrsFrom 16 pre ∨ a ∈ freeAddrsFrom (16 + sumSizes pre) mid ∨
      a ∈ freeAddrsFrom (16 + sumSizes pre + sumSizes mid) post := by
  unfold freeAddrs
  rw [freeAddrsFrom_append, freeAddrsFrom_append]
  simp [List.mem_append, Nat.add_assoc]

theorem freeAddrsFrom_ge (s : Nat) (bs : List Blk) :
    ∀ a ∈ freeAddrsFrom s bs, s ≤ a :=
  fun a ha => bpAddrs_ge s bs a (freeAddrsFrom_subset s bs a ha)

theorem freeAddrsFrom_lt (s : Nat) (bs : List Blk)
    (hpos : ∀ b ∈ bs, 1 ≤ GET_SIZE b.hdr) :
    ∀ a ∈ freeAddrsFrom s bs, a < s + sumSizes bs :=
  fun a ha => bpAddrs_lt s bs hpos a (freeAddrsFrom_subset s bs a ha)

/-- Re-establish the invariant for a state of the form
`pre2 ++ finalBlk :: post1` where the free block `finalBlk` is about to be
inserted into the index: this is the common final step of `coalesce`. -/
theorem rebuild_WF (pre2 : List Blk) (finalBlk : Blk) (post1 : List Blk)
    (fl2 : List Nat) (avail : Nat)
    (hwf2 : ∀ x ∈ pre2 ++ finalBlk :: post1, BlkWF x)
    (hfree : GET_ISALLOCATED finalBlk.hdr = 0)
    (hch : List.Chain' AdjOK pre2)
    (hchp : List.Chain' AdjOK post1)
    (hlast : ∀ x, pre2.getLast? = some x → GET_ISALLOCATED x.hdr = 1)
    (hhead : ∀ x, post1.head? = some x → GET_ISALLOCATED x.hdr = 1)
    (hnd : fl2.Nodup)
    (hnm : (16 + sumSizes pre2) ∉ fl2)
    (hiff : ∀ a, a ∈ fl2 ↔
      a ∈ freeAddrs (pre2 ++ finalBlk :: post1) ∧ a ≠ 16 + sumSizes pre2)
    (hsort : List.Pairwise
      (fun x y => sizeAt (pre2 ++ finalBlk :: post1) x ≤
                  sizeAt (pre2 ++ finalBlk :: post1) y) fl2) :
    WF ⟨pre2 ++ finalBlk :: post1,
        insert_node (pre2 ++ finalBlk :: post1) fl2 (16 + sumSizes pre2)
          (GET_SIZE finalBlk.hdr), avail⟩ ∧
    (16 + sumSizes pre2) ∈
      insert_node (pre2 ++ finalBlk :: post1) fl2 (16 + sumSizes pre2)
        (GET_SIZE finalBlk.hdr) ∧
    sizeAt (pre2 ++ finalBlk :: post1) (16 + sumSizes pre2) = GET_SIZE finalBlk.hdr := by
  have hpos2 : ∀ x ∈ pre2, 1 ≤ GET_SIZE x.hdr := by
    intro x hx
    have := (hwf2 x (by simp [hx])).size_ge
    omega
  have hat : blkAtFrom 16 (pre2 ++ finalBlk :: post1) (16 + sumSizes pre2) = some finalBlk :=
    blkAtFrom_of_split (splitAtAddr_at hpos2)
  have hsz : sizeAt (pre2 ++ finalBlk :: post1) (16 + sumSizes pre2) = GET_SIZE finalBlk.hdr := by
    unfold sizeAt
    rw [hat]
  have hmemfinal : (16 + sumSizes pre2) ∈ freeAddrs (pre2 ++ finalBlk :: post1) := by
    unfold freeAddrs
    rw [freeAddrsFrom_append]
    simp only [List.mem_append]
    right
    simp [freeAddrsFrom, hfree]
  refine ⟨⟨?_, ?_, ?_, ?_, ?_⟩, ?_, hsz⟩
  · exact hwf2
  · rw [List.chain'_append]
    refine ⟨hch, ?_, ?_⟩
    · rw [List.chain'_cons']
      refine ⟨fun y hy => Or.inr (hhead y hy), hchp⟩
    · intro x hx y hy
      simp only [List.head?_cons, Option.mem_def, Option.some.injEq] at hy
      subst hy
      exact Or.inl (hlast x hx)
  · exact nodup_insert_node _ _ _ _ hnd hnm
  · intro a
    rw [mem_insert_node]
    constructor
    · rintro (rfl | hmem)
      · exact hmemfinal
      · exact ((hiff a).mp hmem).1
    · intro hmem
      by_cases ha : a = 16 + sumSizes pre2
      · exact Or.inl ha
      · exact Or.inr ((hiff a).mpr ⟨hmem, ha⟩)
  · rw [← hsz]
    exact pairwise_insert_node _ _ _ hsort
  · rw [mem_insert_node]
    exact Or.inl rfl

theorem coalesce_eq_body {st : HeapState} {bp : Nat} {pre : List Blk} {b : Blk}
    {post : List Blk} (h : splitAtAddr 16 st.blocks bp = some (pre, b, post)) :
    coalesce st bp = coalesce_body pre b post st.freeList st.avail bp := by
  unfold coalesce
  rw [h]

theorem allocate_eq_body {st : HeapState} {bp blk_size : Nat} {pre : List Blk} {b : Blk}
    {post : List Blk} (h : splitAtAddr 16 st.blocks bp = some (pre, b, post)) :
    allocate st bp blk_size =
      allocate_body pre b post (remove_node st.freeList bp) st.avail bp blk_size := by
  unfold allocate
  rw [h]

theorem mm_free_eq_body {st : HeapState} {ptr : Nat} {pre : List Blk} {b : Blk}
    {post : List Blk} (h : splitAtAddr 16 st.blocks ptr = some (pre, b, post)) :
    mm_free st ptr = mm_free_body pre b post st.freeList st.avail ptr := by
  unfold mm_free
  rw [h]

/-- The previous block is not free: the prologue sits before the block, or
the last block of `pre` is allocated. -/
def PrevKeep (pre : List Blk) : Prop :=
  pre.getLast? = none ∨ ∃ p, pre.getLast? = some p ∧ GET_ISALLOCATED p.hdr = 1

/-- The next block is not free: the epilogue follows the block, or the
first block of `post` is allocated. -/
def NextKeep (post : List Blk) : Prop :=
  post = [] ∨ ∃ n post', post = n :: post' ∧ GET_ISALLOCATED n.hdr = 1

theorem coalesce_body_keep_keep (pre : List Blk) (b : Blk) (post : List Blk)
    (fl : List Nat) (avail : Nat) (bp : Nat)
    (hna : NextKeep post) (hpa : PrevKeep pre) :
    coalesce_body pre b post fl avail bp =
      (bp, ⟨pre ++ b :: post,
            insert_node (pre ++ b :: post) fl bp (GET_SIZE b.hdr), avail⟩) := by
  rcases hna with rfl | ⟨n, post', rfl, hn1⟩ <;>
    rcases hpa with hp0 | ⟨p, hp, hp1⟩ <;>
      simp [coalesce_body, *]

theorem coalesce_body_next_keep (pre : List Blk) (b n : Blk) (post' : List Blk)
    (fl : List Nat) (avail : Nat) (bp : Nat)
    (hnf : GET_ISALLOCATED n.hdr = 0) (hpa : PrevKeep pre) :
    coalesce_body pre b (n :: post') fl avail bp =
      (bp, ⟨pre ++ ⟨PACK (GET_SIZE b.hdr + GET_SIZE n.hdr) 0,
                    PACK (GET_SIZE b.hdr + GET_SIZE n.hdr) 0⟩ :: post',
            insert_node
              (pre ++ ⟨PACK (GET_SIZE b.hdr + GET_SIZE n.hdr) 0,
                       PACK (GET_SIZE b.hdr + GET_SIZE n.hdr) 0⟩ :: post')
              (remove_node fl (bp + GET_SIZE b.hdr)) bp
              (GET_SIZE (PACK (GET_SIZE b.hdr + GET_SIZE n.hdr) 0)), avail⟩) := by
  rcases hpa with hp0 | ⟨p, hp, hp1⟩ <;>
    simp [coalesce_body, *]

theorem coalesce_body_prev_keep (pre' : List Blk) (p b : Blk) (post : List Blk)
    (fl : List Nat) (avail : Nat) (bp : Nat)
    (hpf : GET_ISALLOCATED p.hdr = 0) (hftr : p.ftr = p.hdr) (hna : NextKeep post) :
    coalesce_body (pre' ++ [p]) b post fl avail bp =
      (bp - GET_SIZE p.hdr,
       ⟨pre' ++ ⟨PACK (GET_SIZE b.hdr + GET_SIZE p.hdr) 0,
                 PACK (GET_SIZE b.hdr + GET_SIZE p.hdr) 0⟩ :: post,
        insert_node
          (pre' ++ ⟨PACK (GET_SIZE b.hdr + GET_SIZE p.hdr) 0,
                    PACK (GET_SIZE b.hdr + GET_SIZE p.hdr) 0⟩ :: post)
          (remove_node fl (bp - GET_SIZE p.hdr)) (bp - GET_SIZE p.hdr)
          (GET_SIZE (PACK (GET_SIZE b.hdr + GET_SIZE p.hdr) 0)), avail⟩) := by
  rcases hna with rfl | ⟨n, post'', rfl, hn1⟩ <;>
    simp [coalesce_body, List.getLast?_concat, List.dropLast_concat, *]

theorem coalesce_body_both (pre' : List Blk) (p b n : Blk) (post' : List Blk)
    (fl : List Nat) (avail : Nat) (bp : Nat)
    (hpf : GET_ISALLOCATED p.hdr = 0) (hftr : p.ftr = p.hdr)
    (hnf : GET_ISALLOCATED n.hdr = 0) :
    coalesce_body (pre' ++ [p]) b (n :: post') fl avail bp =
      (bp - GET_SIZE p.hdr,
       ⟨pre' ++ ⟨PACK (GET_SIZE b.hdr + GET_SIZE n.hdr + GET_SIZE p.hdr) 0,
                 PACK (GET_SIZE b.hdr + GET_SIZE n.hdr + GET_SIZE p.hdr) 0⟩ :: post',
        insert_node
          (pre' ++ ⟨PACK (GET_SIZE b.hdr + GET_SIZE n.hdr + GET_SIZE p.hdr) 0,
                    PACK (GET_SIZE b.hdr + GET_SIZE n.hdr + GET_SIZE p.hdr) 0⟩ :: post')
          (remove_node (remove_node fl (bp + GET_SIZE b.hdr)) (bp - GET_SIZE p.hdr))
          (bp - GET_SIZE p.hdr)
          (GET_SIZE (PACK (GET_SIZE b.hdr + GET_SIZE n.hdr + GET_SIZE p.hdr) 0)),
        avail⟩) := by
  simp [coalesce_body, List.getLast?_concat, List.dropLast_concat, hpf, hftr, hnf]

set_option maxHeartbeats 1000000

theorem coalesce_body_spec (pre : List Blk) (b : Blk) (post : List Blk)
    (fl : List Nat) (avail : Nat)
    (hwf : ∀ x ∈ pre ++ b :: post, BlkWF x)
    (hbfree : GET_ISALLOCATED b.hdr = 0)
    (hchpre : List.Chain' AdjOK pre)
    (hchpost : List.Chain' AdjOK post)
    (hnd : fl.Nodup)
    (hiff : ∀ a, a ∈ fl ↔ a ∈ freeAddrs (pre ++ b :: post) ∧ a ≠ 16 + sumSizes pre)
    (hsort : List.Pairwise
      (fun x y => sizeAt (pre ++ b :: post) x ≤ sizeAt (pre ++ b :: post) y) fl)
    (bp2r : Nat) (st2 : HeapState)
    (hc : coalesce_body pre b post fl avail (16 + sumSizes pre) = (bp2r, st2)) :
    WF st2 ∧ st2.avail = avail ∧ bp2r ∈ st2.freeList ∧
    GET_SIZE b.hdr ≤ sizeAt st2.blocks bp2r := by
  have hbwf : BlkWF b := hwf b (by simp)
  have hsmod := GET_SIZE_mod b.hdr
  have hsge := hbwf.size_ge
  have hpospre : ∀ x ∈ pre, 1 ≤ GET_SIZE x.hdr := by
    intro x hx
    have := (hwf x (by simp [hx])).size_ge
    omega
  have hlt : ∀ a ∈ freeAddrsFrom 16 pre, a < 16 + sumSizes pre :=
    freeAddrsFrom_lt 16 pre hpospre
  have hprev : PrevKeep pre ∨ ∃ pre' p, pre = pre' ++ [p] ∧ GET_ISALLOCATED p.hdr = 0 := by
    rcases List.eq_nil_or_concat pre with rfl | ⟨pre', p, hpre⟩
    · exact Or.inl (Or.inl rfl)
    · rw [List.concat_eq_append] at hpre
      subst hpre
      by_cases hpf : GET_ISALLOCATED p.hdr = 0
      · exact Or.inr ⟨pre', p, rfl, hpf⟩
      · have := GET_ISALLOCATED_le p.hdr
        exact Or.inl (Or.inr ⟨p, List.getLast?_concat _, by omega⟩)
  have hnext : NextKeep post ∨ ∃ n post', post = n :: post' ∧ GET_ISALLOCATED n.hdr = 0 := by
    rcases post with _ | ⟨n, post'⟩
    · exact Or.inl (Or.inl rfl)
    · by_cases hnf : GET_ISALLOCATED n.hdr = 0
      · exact Or.inr ⟨n, post', rfl, hnf⟩
      · have := GET_ISALLOCATED_le n.hdr
        exact Or.inl (Or.inr ⟨n, post', rfl, by omega⟩)
  have hlast_of_keep : PrevKeep pre →
      ∀ x, pre.getLast? = some x → GET_ISALLOCATED x.hdr = 1 := by
    rintro (h0 | ⟨p, hp, hp1⟩) x hx
    · rw [h0] at hx; cases hx
    · rw [hp] at hx; injection hx with hx; subst hx; exact hp1
  rcases hnext with hna | ⟨n, post', rfl, hnf⟩
  · have hhead_keep : ∀ x, post.head? = some x → GET_ISALLOCATED x.hdr = 1 := by
      rcases hna with rfl | ⟨n, post', rfl, hn1⟩
      · intro x hx; cases hx
      · intro x hx; injection hx with hx; subst hx; exact hn1
    rcases hprev with hpa | ⟨pre', p, rfl, hpf⟩
    · -- CASE 1: both neighbours kept
      rw [coalesce_body_keep_keep pre b post fl avail _ hna hpa] at hc
      injection hc with h1 h2
      subst h1; subst h2
      have hnm : (16 + sumSizes pre) ∉ fl := fun hm => ((hiff _).mp hm).2 rfl
      obtain ⟨hWF, hmem, hszeq⟩ :=
        rebuild_WF pre b post fl avail hwf hbfree hchpre hchpost
          (hlast_of_keep hpa) hhead_keep hnd hnm hiff hsort
      exact ⟨hWF, rfl, hmem, le_of_eq hszeq.symm⟩
    · -- CASE 3: previous block free, next kept
      have hpwf : BlkWF p := hwf p (by simp)
      have hftr : p.ftr = p.hdr := hpwf.1
      have hspmod := GET_SIZE_mod p.hdr
      have hspge := hpwf.size_ge
      have hsum : sumSizes (pre' ++ [p]) = sumSizes pre' + GET_SIZE p.hdr := by
        simp [sumSizes_append, sumSizes_cons, sumSizes_nil]
      have hbp2 : 16 + sumSizes (pre' ++ [p]) - GET_SIZE p.hdr = 16 + sumSizes pre' := by
        omega
      rw [coalesce_body_prev_keep pre' p b post fl avail _ hpf hftr hna, hbp2] at hc
      injection hc with h1 h2
      subst h1; subst h2
      have hgsz : GET_SIZE (PACK (GET_SIZE b.hdr + GET_SIZE p.hdr) 0) =
          GET_SIZE b.hdr + GET_SIZE p.hdr := GET_SIZE_PACK (by omega) (by omega)
      have hgal : GET_ISALLOCATED (PACK (GET_SIZE b.hdr + GET_SIZE p.hdr) 0) = 0 :=
        GET_ISALLOCATED_PACK (by omega) (by omega)
      have hpos' : ∀ x ∈ pre', 1 ≤ GET_SIZE x.hdr := by
        intro x hx
        exact hpospre x (by simp [hx])
      have hlt' : ∀ a ∈ freeAddrsFrom 16 pre', a < 16 + sumSizes pre' :=
        freeAddrsFrom_lt 16 pre' hpos'
      obtain ⟨hch1, -, hbound⟩ := List.chain'_append.mp hchpre
      have hform : (pre' ++ [p]) ++ b :: post = pre' ++ ([p, b] ++ post) := by simp
      simp only [hform] at hiff hsort
      have hsum2 : sumSizes [p, b] = GET_SIZE p.hdr + GET_SIZE b.hdr := by
        simp [sumSizes_cons, sumSizes_nil]
      have hffO : ∀ a, a ∈ freeAddrs (pre' ++ ([p, b] ++ post)) ↔
          (a ∈ freeAddrsFrom 16 pre' ∨ a = 16 + sumSizes pre' ∨
           a = 16 + sumSizes pre' + GET_SIZE p.hdr ∨
           a ∈ freeAddrsFrom (16 + sumSizes pre' + (GET_SIZE p.hdr + GET_SIZE b.hdr))
             post) := by
        intro a
        rw [freeAddrs_decomp, hsum2]
        simp [freeAddrsFrom, hpf, hbfree]
        tauto
      have hmrg : sumSizes [(⟨PACK (GET_SIZE b.hdr + GET_SIZE p.hdr) 0,
          PACK (GET_SIZE b.hdr + GET_SIZE p.hdr) 0⟩ : Blk)] =
          GET_SIZE p.hdr + GET_SIZE b.hdr := by
        simp [sumSizes_cons, sumSizes_nil, hgsz]
        omega
      have hffN : ∀ a, a ∈ freeAddrs (pre' ++
          ((⟨PACK (GET_SIZE b.hdr + GET_SIZE p.hdr) 0,
             PACK (GET_SIZE b.hdr + GET_SIZE p.hdr) 0⟩ : Blk) :: post)) ↔
          (a ∈ freeAddrsFrom 16 pre' ∨ a = 16 + sumSizes pre' ∨
           a ∈ freeAddrsFrom (16 + sumSizes pre' + (GET_SIZE p.hdr + GET_SIZE b.hdr))
             post) := by
        intro a
        rw [show pre' ++
            ((⟨PACK (GET_SIZE b.hdr + GET_SIZE p.hdr) 0,
               PACK (GET_SIZE b.hdr + GET_SIZE p.hdr) 0⟩ : Blk) :: post) =
            pre' ++ ([⟨PACK (GET_SIZE b.hdr + GET_SIZE p.hdr) 0,
                       PACK (GET_SIZE b.hdr + GET_SIZE p.hdr) 0⟩] ++ post) from by simp,
          freeAddrs_decomp, hmrg]
        simp [freeAddrsFrom, hgal]
      have hfl2 : ∀ a, a ∈ remove_node fl (16 + sumSizes pre') ↔
          a ≠ 16 + sumSizes pre' ∧ a ∈ fl := fun a => mem_remove_node hnd
      have hiff2 : ∀ a, a ∈ remove_node fl (16 + sumSizes pre') ↔
          a ∈ freeAddrs (pre' ++
            ((⟨PACK (GET_SIZE b.hdr + GET_SIZE p.hdr) 0,
               PACK (GET_SIZE b.hdr + GET_SIZE p.hdr) 0⟩ : Blk) :: post)) ∧
          a ≠ 16 + sumSizes pre' := by
        intro a
        rw [hfl2 a, hiff a, hffO a, hffN a]
        constructor
        · rintro ⟨hnn, (hm | rfl | rfl | hm), hnb⟩
          · exact ⟨Or.inl hm, hnn⟩
          · exact absurd rfl hnn
          · omega
          · exact ⟨Or.inr (Or.inr hm), hnn⟩
        · rintro ⟨(hm | rfl | hm), hnn⟩
          · have := hlt' a hm
            refine ⟨hnn, Or.inl hm, ?_⟩
            omega
          · exact absurd rfl hnn
          · have := freeAddrsFrom_ge _ post a hm
            refine ⟨hnn, Or.inr (Or.inr (Or.inr hm)), ?_⟩
            omega
      have hnd2 : (remove_node fl (16 + sumSizes pre')).Nodup := nodup_remove_node _ hnd
      have hfacts : ∀ a ∈ remove_node fl (16 + sumSizes pre'),
          ¬(a = 16 + sumSizes pre') ∧ ¬(a = 16 + sumSizes pre' + GET_SIZE p.hdr) := by
        intro a ha
        obtain ⟨hnn, hmem⟩ := (hfl2 a).mp ha
        obtain ⟨-, hnb⟩ := (hiff a).mp hmem
        exact ⟨hnn, by omega⟩
      have hS : sumSizes [p, b] =
          sumSizes [(⟨PACK (GET_SIZE b.hdr + GET_SIZE p.hdr) 0,
                      PACK (GET_SIZE b.hdr + GET_SIZE p.hdr) 0⟩ : Blk)] := by
        rw [hsum2, hmrg]
      have hnone : ∀ a ∈ remove_node fl (16 + sumSizes pre'),
          blkAtFrom (16 + sumSizes pre') [p, b] a = none := by
        intro a ha
        obtain ⟨h1, h2⟩ := hfacts a ha
        simp [blkAtFrom, h1, h2]
      have hnoneN : ∀ a ∈ remove_node fl (16 + sumSizes pre'),
          blkAtFrom (16 + sumSizes pre')
            [(⟨PACK (GET_SIZE b.hdr + GET_SIZE p.hdr) 0,
               PACK (GET_SIZE b.hdr + GET_SIZE p.hdr) 0⟩ : Blk)] a = none := by
        intro a ha
        obtain ⟨h1, -⟩ := hfacts a ha
        simp [blkAtFrom, h1]
      have hsortR := pairwise_remove_node (16 + sumSizes pre') hsort
      have hsort2 := pairwise_transfer pre' [p, b]
        [(⟨PACK (GET_SIZE b.hdr + GET_SIZE p.hdr) 0,
           PACK (GET_SIZE b.hdr + GET_SIZE p.hdr) 0⟩ : Blk)] post
        (remove_node fl (16 + sumSizes pre')) hS hnone hnoneN hsortR
      obtain ⟨hWF, hmem, hszeq⟩ :=
        rebuild_WF pre' ⟨PACK (GET_SIZE b.hdr + GET_SIZE p.hdr) 0,
                         PACK (GET_SIZE b.hdr + GET_SIZE p.hdr) 0⟩ post
          (remove_node fl (16 + sumSizes pre')) avail
          (by
            intro x hx
            rcases List.mem_append.mp hx with hx1 | hx1
            · exact hwf x (by simp [hx1])
            · rcases List.mem_cons.mp hx1 with rfl | hx2
              · exact BlkWF_pack (by omega) (by omega) (by omega)
              · exact hwf x (by simp [hx2]))
          hgal hch1 hchpost
          (by
            intro x hx
            have hadj := hbound x hx p (by simp)
            rcases hadj with h | h
            · exact h
            · omega)
          hhead_keep
          hnd2 (not_mem_remove_node _ hnd) hiff2 hsort2
      refine ⟨hWF, rfl, hmem, ?_⟩
      rw [hszeq]
      show GET_SIZE b.hdr ≤ GET_SIZE (PACK (GET_SIZE b.hdr + GET_SIZE p.hdr) 0)
      rw [hgsz]
      omega
  · -- next block free
    have hnwf : BlkWF n := hwf n (by simp)
    have hsnmod := GET_SIZE_mod n.hdr
    have hsnge := hnwf.size_ge
    have hchp' : List.Chain' AdjOK post' := (List.chain'_cons'.mp hchpost).2
    have hhead' : ∀ y, post'.head? = some y → GET_ISALLOCATED y.hdr = 1 := by
      intro y hy
      have hadj := (List.chain'_cons'.mp hchpost).1 y hy
      rcases hadj with h | h
      · omega
      · exact h
    rcases hprev with hpa | ⟨pre', p, rfl, hpf⟩
    · -- CASE 2: next free, previous kept
      rw [coalesce_body_next_keep pre b n post' fl avail _ hnf hpa] at hc
      injection hc with h1 h2
      subst h1; subst h2
      have hgsz : GET_SIZE (PACK (GET_SIZE b.hdr + GET_SIZE n.hdr) 0) =
          GET_SIZE b.hdr + GET_SIZE n.hdr := GET_SIZE_PACK (by omega) (by omega)
      have hgal : GET_ISALLOCATED (PACK (GET_SIZE b.hdr + GET_SIZE n.hdr) 0) = 0 :=
        GET_ISALLOCATED_PACK (by omega) (by omega)
      have hsum2 : sumSizes [b, n] = GET_SIZE b.hdr + GET_SIZE n.hdr := by
        simp [sumSizes_cons, sumSizes_nil]
      have hform : pre ++ b :: n :: post' = pre ++ ([b, n] ++ post') := by simp
      simp only [hform] at hiff hsort
      have hffO : ∀ a, a ∈ freeAddrs (pre ++ ([b, n] ++ post')) ↔
          (a ∈ freeAddrsFrom 16 pre ∨ a = 16 + sumSizes pre ∨
           a = 16 + sumSizes pre + GET_SIZE b.hdr ∨
           a ∈ freeAddrsFrom (16 + sumSizes pre + (GET_SIZE b.hdr + GET_SIZE n.hdr))
             post') := by
        intro a
        rw [freeAddrs_decomp, hsum2]
        simp [freeAddrsFrom, hbfree, hnf]
        tauto
      have hmrg : sumSizes [(⟨PACK (GET_SIZE b.hdr + GET_SIZE n.hdr) 0,
          PACK (GET_SIZE b.hdr + GET_SIZE n.hdr) 0⟩ : Blk)] =
          GET_SIZE b.hdr + GET_SIZE n.hdr := by
        simp [sumSizes_cons, sumSizes_nil, hgsz]
      have hffN : ∀ a, a ∈ freeAddrs (pre ++
          ((⟨PACK (GET_SIZE b.hdr + GET_SIZE n.hdr) 0,
             PACK (GET_SIZE b.hdr + GET_SIZE n.hdr) 0⟩ : Blk) :: post')) ↔
          (a ∈ freeAddrsFrom 16 pre ∨ a = 16 + sumSizes pre ∨
           a ∈ freeAddrsFrom (16 + sumSizes pre + (GET_SIZE b.hdr + GET_SIZE n.hdr))
             post') := by
        intro a
        rw [show pre ++
            ((⟨PACK (GET_SIZE b.hdr + GET_SIZE n.hdr) 0,
               PACK (GET_SIZE b.hdr + GET_SIZE n.hdr) 0⟩ : Blk) :: post') =
            pre ++ ([⟨PACK (GET_SIZE b.hdr + GET_SIZE n.hdr) 0,
                      PACK (GET_SIZE b.hdr + GET_SIZE n.hdr) 0⟩] ++ post') from by simp,
          freeAddrs_decomp, hmrg]
        simp [freeAddrsFrom, hgal]
      have hfl2 : ∀ a, a ∈ remove_node fl (16 + sumSizes pre + GET_SIZE b.hdr) ↔
          a ≠ 16 + sumSizes pre + GET_SIZE b.hdr ∧ a ∈ fl := fun a => mem_remove_node hnd
      have hiff2 : ∀ a, a ∈ remove_node fl (16 + sumSizes pre + GET_SIZE b.hdr) ↔
          a ∈ freeAddrs (pre ++
            ((⟨PACK (GET_SIZE b.hdr + GET_SIZE n.hdr) 0,
               PACK (GET_SIZE b.hdr + GET_SIZE n.hdr) 0⟩ : Blk) :: post')) ∧
          a ≠ 16 + sumSizes pre := by
        intro a
        rw [hfl2 a, hiff a, hffO a, hffN a]
        constructor
        · rintro ⟨hnn, (hm | rfl | rfl | hm), hnb⟩
          · exact ⟨Or.inl hm, hnb⟩
          · exact absurd rfl hnb
          · exact absurd rfl hnn
          · exact ⟨Or.inr (Or.inr hm), hnb⟩
        · rintro ⟨(hm | rfl | hm), hnb⟩
          · have := hlt a hm
            refine ⟨by omega, Or.inl hm, hnb⟩
          · exact absurd rfl hnb
          · have := freeAddrsFrom_ge _ post' a hm
            refine ⟨by omega, Or.inr (Or.inr (Or.inr hm)), hnb⟩
      have hnd2 : (remove_node fl (16 + sumSizes pre + GET_SIZE b.hdr)).Nodup :=
        nodup_remove_node _ hnd
      have hfacts : ∀ a ∈ remove_node fl (16 + sumSizes pre + GET_SIZE b.hdr),
          ¬(a = 16 + sumSizes pre) ∧ ¬(a = 16 + sumSizes pre + GET_SIZE b.hdr) := by
        intro a ha
        obtain ⟨hnn, hmem⟩ := (hfl2 a).mp ha
        obtain ⟨-, hnb⟩ := (hiff a).mp hmem
        exact ⟨hnb, hnn⟩
      have hS : sumSizes [b, n] =
          sumSizes [(⟨PACK (GET_SIZE b.hdr + GET_SIZE n.hdr) 0,
                      PACK (GET_SIZE b.hdr + GET_SIZE n.hdr) 0⟩ : Blk)] := by
        rw [hsum2, hmrg]
      have hnone : ∀ a ∈ remove_node fl (16 + sumSizes pre + GET_SIZE b.hdr),
          blkAtFrom (16 + sumSizes pre) [b, n] a = none := by
        intro a ha
        obtain ⟨h1, h2⟩ := hfacts a ha
        simp [blkAtFrom, h1, h2]
      have hnoneN : ∀ a ∈ remove_node fl (16 + sumSizes pre + GET_SIZE b.hdr),
          blkAtFrom (16 + sumSizes pre)
            [(⟨PACK (GET_SIZE b.hdr + GET_SIZE n.hdr) 0,
               PACK (GET_SIZE b.hdr + GET_SIZE n.hdr) 0⟩ : Blk)] a = none := by
        intro a ha
        obtain ⟨h1, -⟩ := hfacts a ha
        simp [blkAtFrom, h1]
      have hsortR := pairwise_remove_node (16 + sumSizes pre + GET_SIZE b.hdr) hsort
      have hsort2 := pairwise_transfer pre [b, n]
        [(⟨PACK (GET_SIZE b.hdr + GET_SIZE n.hdr) 0,
           PACK (GET_SIZE b.hdr + GET_SIZE n.hdr) 0⟩ : Blk)] post'
        (remove_node fl (16 + sumSizes pre + GET_SIZE b.hdr)) hS hnone hnoneN hsortR
      have hnm2 : (16 + sumSizes pre) ∉
          remove_node fl (16 + sumSizes pre + GET_SIZE b.hdr) := by
        intro hm
        obtain ⟨-, hmem⟩ := (hfl2 _).mp hm
        exact ((hiff _).mp hmem).2 rfl
      obtain ⟨hWF, hmem, hszeq⟩ :=
        rebuild_WF pre ⟨PACK (GET_SIZE b.hdr + GET_SIZE n.hdr) 0,
                        PACK (GET_SIZE b.hdr + GET_SIZE n.hdr) 0⟩ post'
          (remove_node fl (16 + sumSizes pre + GET_SIZE b.hdr)) avail
          (by
            intro x hx
            rcases List.mem_append.mp hx with hx1 | hx1
            · exact hwf x (by simp [hx1])
            · rcases List.mem_cons.mp hx1 with rfl | hx2
              · exact BlkWF_pack (by omega) (by omega) (by omega)
              · exact hwf x (by simp [hx2]))
          hgal hchpre hchp'
          (hlast_of_keep hpa) hhead'
          hnd2 hnm2 hiff2 hsort2
      refine ⟨hWF, rfl, hmem, ?_⟩
      rw [hszeq]
      show GET_SIZE b.hdr ≤ GET_SIZE (PACK (GET_SIZE b.hdr + GET_SIZE n.hdr) 0)
      rw [hgsz]
      omega
    · -- CASE 4: both neighbours free
      have hpwf : BlkWF p := hwf p (by simp)
      have hftr : p.ftr = p.hdr := hpwf.1
      have hspmod := GET_SIZE_mod p.hdr
      have hspge := hpwf.size_ge
      have hsum : sumSizes (pre' ++ [p]) = sumSizes pre' + GET_SIZE p.hdr := by
        simp [sumSizes_append, sumSizes_cons, sumSizes_nil]
      have hbp2 : 16 + sumSizes (pre' ++ [p]) - GET_SIZE p.hdr = 16 + sumSizes pre' := by
        omega
      have haddr : 16 + sumSizes (pre' ++ [p]) + GET_SIZE b.hdr =
          16 + sumSizes pre' + GET_SIZE p.hdr + GET_SIZE b.hdr := by omega
      rw [coalesce_body_both pre' p b n post' fl avail _ hpf hftr hnf, hbp2, haddr] at hc
      injection hc with h1 h2
      subst h1; subst h2
      have hgsz : GET_SIZE (PACK (GET_SIZE b.hdr + GET_SIZE n.hdr + GET_SIZE p.hdr) 0) =
          GET_SIZE b.hdr + GET_SIZE n.hdr + GET_SIZE p.hdr :=
        GET_SIZE_PACK (by omega) (by omega)
      have hgal : GET_ISALLOCATED
          (PACK (GET_SIZE b.hdr + GET_SIZE n.hdr + GET_SIZE p.hdr) 0) = 0 :=
        GET_ISALLOCATED_PACK (by omega) (by omega)
      have hpos' : ∀ x ∈ pre', 1 ≤ GET_SIZE x.hdr := by
        intro x hx
        exact hpospre x (by simp [hx])
      have hlt' : ∀ a ∈ freeAddrsFrom 16 pre', a < 16 + sumSizes pre' :=
        freeAddrsFrom_lt 16 pre' hpos'
      obtain ⟨hch1, -, hbound⟩ := List.chain'_append.mp hchpre
      have hform : (pre' ++ [p]) ++ b :: n :: post' = pre' ++ ([p, b, n] ++ post') := by
        simp
      simp only [hform] at hiff hsort
      have hsum3 : sumSizes [p, b, n] =
          GET_SIZE p.hdr + (GET_SIZE b.hdr + GET_SIZE n.hdr) := by
        simp [sumSizes_cons, sumSizes_nil]
      have hffO : ∀ a, a ∈ freeAddrs (pre' ++ ([p, b, n] ++ post')) ↔
          (a ∈ freeAddrsFrom 16 pre' ∨ a = 16 + sumSizes pre' ∨
           a = 16 + sumSizes pre' + GET_SIZE p.hdr ∨
           a = 16 + sumSizes pre' + GET_SIZE p.hdr + GET_SIZE b.hdr ∨
           a ∈ freeAddrsFrom
             (16 + sumSizes pre' + (GET_SIZE p.hdr + (GET_SIZE b.hdr + GET_SIZE n.hdr)))
             post') := by
        intro a
        rw [freeAddrs_decomp, hsum3]
        simp [freeAddrsFrom, hpf, hbfree, hnf]
        tauto
      have hmrg : sumSizes [(⟨PACK (GET_SIZE b.hdr + GET_SIZE n.hdr + GET_SIZE p.hdr) 0,
          PACK (GET_SIZE b.hdr + GET_SIZE n.hdr + GET_SIZE p.hdr) 0⟩ : Blk)] =
          GET_SIZE p.hdr + (GET_SIZE b.hdr + GET_SIZE n.hdr) := by
        simp [sumSizes_cons, sumSizes_nil, hgsz]
        omega
      have hffN : ∀ a, a ∈ freeAddrs (pre' ++
          ((⟨PACK (GET_SIZE b.hdr + GET_SIZE n.hdr + GET_SIZE p.hdr) 0,
             PACK (GET_SIZE b.hdr + GET_SIZE n.hdr + GET_SIZE p.hdr) 0⟩ : Blk) ::
            post')) ↔
          (a ∈ freeAddrsFrom 16 pre' ∨ a = 16 + sumSizes pre' ∨
           a ∈ freeAddrsFrom
             (16 + sumSizes pre' + (GET_SIZE p.hdr + (GET_SIZE b.hdr + GET_SIZE n.hdr)))
             post') := by
        intro a
        rw [show pre' ++
            ((⟨PACK (GET_SIZE b.hdr + GET_SIZE n.hdr + GET_SIZE p.hdr) 0,
               PACK (GET_SIZE b.hdr + GET_SIZE n.hdr + GET_SIZE p.hdr) 0⟩ : Blk) ::
              post') =
            pre' ++ ([⟨PACK (GET_SIZE b.hdr + GET_SIZE n.hdr + GET_SIZE p.hdr) 0,
                       PACK (GET_SIZE b.hdr + GET_SIZE n.hdr + GET_SIZE p.hdr) 0⟩] ++
              post') from by simp,
          freeAddrs_decomp, hmrg]
        simp [freeAddrsFrom, hgal]
      have hnd1 : (remove_node fl
          (16 + sumSizes pre' + GET_SIZE p.hdr + GET_SIZE b.hdr)).Nodup :=
        nodup_remove_node _ hnd
      have hfl1 : ∀ a, a ∈ remove_node fl
          (16 + sumSizes pre' + GET_SIZE p.hdr + GET_SIZE b.hdr) ↔
          a ≠ 16 + sumSizes pre' + GET_SIZE p.hdr + GET_SIZE b.hdr ∧ a ∈ fl :=
        fun a => mem_remove_node hnd
      have hfl2 : ∀ a, a ∈ remove_node (remove_node fl
          (16 + sumSizes pre' + GET_SIZE p.hdr + GET_SIZE b.hdr)) (16 + sumSizes pre') ↔
          a ≠ 16 + sumSizes pre' ∧
          a ≠ 16 + sumSizes pre' + GET_SIZE p.hdr + GET_SIZE b.hdr ∧ a ∈ fl := by
        intro a
        rw [mem_remove_node hnd1, hfl1 a]
      have hiff2 : ∀ a, a ∈ remove_node (remove_node fl
          (16 + sumSizes pre' + GET_SIZE p.hdr + GET_SIZE b.hdr)) (16 + sumSizes pre') ↔
          a ∈ freeAddrs (pre' ++
            ((⟨PACK (GET_SIZE b.hdr + GET_SIZE n.hdr + GET_SIZE p.hdr) 0,
               PACK (GET_SIZE b.hdr + GET_SIZE n.hdr + GET_SIZE p.hdr) 0⟩ : Blk) ::
              post')) ∧
          a ≠ 16 + sumSizes pre' := by
        intro a
        rw [hfl2 a, hiff a, hffO a, hffN a]
        constructor
        · rintro ⟨hn1, hn2, (hm | rfl | rfl | rfl | hm), hnb⟩
          · exact ⟨Or.inl hm, hn1⟩
          · exact absurd rfl hn1
          · omega
          · exact absurd rfl hn2
          · exact ⟨Or.inr (Or.inr hm), hn1⟩
        · rintro ⟨(hm | rfl | hm), hn1⟩
          · have := hlt' a hm
            refine ⟨hn1, by omega, Or.inl hm, by omega⟩
          · exact absurd rfl hn1
          · have := freeAddrsFrom_ge _ post' a hm
            refine ⟨hn1, by omega, Or.inr (Or.inr (Or.inr (Or.inr hm))), by omega⟩
      have hnd2 : (remove_node (remove_node fl
          (16 + sumSizes pre' + GET_SIZE p.hdr + GET_SIZE b.hdr))
          (16 + sumSizes pre')).Nodup := nodup_remove_node _ hnd1
      have hfacts : ∀ a ∈ remove_node (remove_node fl
          (16 + sumSizes pre' + GET_SIZE p.hdr + GET_SIZE b.hdr)) (16 + sumSizes pre'),
          ¬(a = 16 + sumSizes pre') ∧ ¬(a = 16 + sumSizes pre' + GET_SIZE p.hdr) ∧
          ¬(a = 16 + sumSizes pre' + GET_SIZE p.hdr + GET_SIZE b.hdr) := by
        intro a ha
        obtain ⟨hn1, hn2, hmem⟩ := (hfl2 a).mp ha
        obtain ⟨-, hnb⟩ := (hiff a).mp hmem
        exact ⟨hn1, by omega, hn2⟩
      have hS : sumSizes [p, b, n] =
          sumSizes [(⟨PACK (GET_SIZE b.hdr + GET_SIZE n.hdr + GET_SIZE p.hdr) 0,
                      PACK (GET_SIZE b.hdr + GET_SIZE n.hdr + GET_SIZE p.hdr) 0⟩ :
                     Blk)] := by
        rw [hsum3, hmrg]
      have hnone : ∀ a ∈ remove_node (remove_node fl
          (16 + sumSizes pre' + GET_SIZE p.hdr + GET_SIZE b.hdr)) (16 + sumSizes pre'),
          blkAtFrom (16 + sumSizes pre') [p, b, n] a = none := by
        intro a ha
        obtain ⟨h1, h2, h3⟩ := hfacts a ha
        simp [blkAtFrom, h1, h2, h3]
      have hnoneN : ∀ a ∈ remove_node (remove_node fl
          (16 + sumSizes pre' + GET_SIZE p.hdr + GET_SIZE b.hdr)) (16 + sumSizes pre'),
          blkAtFrom (16 + sumSizes pre')
            [(⟨PACK (GET_SIZE b.hdr + GET_SIZE n.hdr + GET_SIZE p.hdr) 0,
               PACK (GET_SIZE b.hdr + GET_SIZE n.hdr + GET_SIZE p.hdr) 0⟩ : Blk)] a =
            none := by
        intro a ha
        obtain ⟨h1, -, -⟩ := hfacts a ha
        simp [blkAtFrom, h1]
      have hsortR := pairwise_remove_node (16 + sumSizes pre')
        (pairwise_remove_node (16 + sumSizes pre' + GET_SIZE p.hdr + GET_SIZE b.hdr)
          hsort)
      have hsort2 := pairwise_transfer pre' [p, b, n]
        [(⟨PACK (GET_SIZE b.hdr + GET_SIZE n.hdr + GET_SIZE p.hdr) 0,
           PACK (GET_SIZE b.hdr + GET_SIZE n.hdr + GET_SIZE p.hdr) 0⟩ : Blk)] post'
        (remove_node (remove_node fl
          (16 + sumSizes pre' + GET_SIZE p.hdr + GET_SIZE b.hdr)) (16 + sumSizes pre'))
        hS hnone hnoneN hsortR
      obtain ⟨hWF, hmem, hszeq⟩ :=
        rebuild_WF pre' ⟨PACK (GET_SIZE b.hdr + GET_SIZE n.hdr + GET_SIZE p.hdr) 0,
                         PACK (GET_SIZE b.hdr + GET_SIZE n.hdr + GET_SIZE p.hdr) 0⟩
          post'
          (remove_node (remove_node fl
            (16 + sumSizes pre' + GET_SIZE p.hdr + GET_SIZE b.hdr))
            (16 + sumSizes pre')) avail
          (by
            intro x hx
            rcases List.mem_append.mp hx with hx1 | hx1
            · exact hwf x (by simp [hx1])
            · rcases List.mem_cons.mp hx1 with rfl | hx2
              · exact BlkWF_pack (by omega) (by omega) (by omega)
              · exact hwf x (by simp [hx2]))
          hgal hch1 hchp'
          (by
            intro x hx
            have hadj := hbound x hx p (by simp)
            rcases hadj with h | h
            · exact h
            · omega)
          hhead'
          hnd2 (not_mem_remove_node _ hnd1) hiff2 hsort2
      refine ⟨hWF, rfl, hmem, ?_⟩
      rw [hszeq]
      show GET_SIZE b.hdr ≤
        GET_SIZE (PACK (GET_SIZE b.hdr + GET_SIZE n.hdr + GET_SIZE p.hdr) 0)
      rw [hgsz]
      omega

theorem rebuild_WF_gen (pre2 : List Blk) (finalBlk : Blk) (post1 : List Blk)
    (fl2 : List Nat) (avail : Nat) (bs2 : List Blk) (bpv k : Nat)
    (hbs2 : bs2 = pre2 ++ finalBlk :: post1)
    (hbpv : bpv = 16 + sumSizes pre2)
    (hk : k = GET_SIZE finalBlk.hdr)
    (hwf2 : ∀ x ∈ bs2, BlkWF x)
    (hfree : GET_ISALLOCATED finalBlk.hdr = 0)
    (hch : List.Chain' AdjOK pre2)
    (hchp : List.Chain' AdjOK post1)
    (hlast : ∀ x, pre2.getLast? = some x → GET_ISALLOCATED x.hdr = 1)
    (hhead : ∀ x, post1.head? = some x → GET_ISALLOCATED x.hdr = 1)
    (hnd : fl2.Nodup)
    (hnm : bpv ∉ fl2)
    (hiff : ∀ a, a ∈ fl2 ↔ a ∈ freeAddrs bs2 ∧ a ≠ bpv)
    (hsort : List.Pairwise (fun x y => sizeAt bs2 x ≤ sizeAt bs2 y) fl2) :
    WF ⟨bs2, insert_node bs2 fl2 bpv k, avail⟩ ∧
    bpv ∈ insert_node bs2 fl2 bpv k ∧ sizeAt bs2 bpv = k := by
  subst hbs2
  subst hbpv
  subst hk
  exact rebuild_WF pre2 finalBlk post1 fl2 avail hwf2 hfree hch hchp hlast hhead
    hnd hnm hiff hsort

theorem sizeAt_append_left {bs more : List Blk} {a : Nat}
    (h : (blkAtFrom 16 bs a).isSome) : sizeAt (bs ++ more) a = sizeAt bs a := by
  unfold sizeAt
  rw [blkAtFrom_append]
  cases hb : blkAtFrom 16 bs a with
  | some c => rfl
  | none => rw [hb] at h; simp at h

theorem allocate_body_spec (pre : List Blk) (b : Blk) (post : List Blk)
    (fl : List Nat) (avail : Nat) (blk_size : Nat)
    (hwf : ∀ x ∈ pre ++ b :: post, BlkWF x)
    (hbfree : GET_ISALLOCATED b.hdr = 0)
    (hch : List.Chain' AdjOK (pre ++ b :: post))
    (hnd : fl.Nodup)
    (hiff : ∀ a, a ∈ fl ↔ a ∈ freeAddrs (pre ++ b :: post))
    (hsort : List.Pairwise
      (fun x y => sizeAt (pre ++ b :: post) x ≤ sizeAt (pre ++ b :: post) y) fl)
    (hk16 : 16 ≤ blk_size) (hk8 : blk_size % 8 = 0)
    (hfit : blk_size ≤ GET_SIZE b.hdr)
    (r : Nat) (st2 : HeapState)
    (hc : allocate_body pre b post (remove_node fl (16 + sumSizes pre)) avail
      (16 + sumSizes pre) blk_size = (r, st2)) :
    WF st2 ∧ st2.avail = avail ∧ r = 16 + sumSizes pre := by
  have hbwf : BlkWF b := hwf b (by simp)
  have hsmod := GET_SIZE_mod b.hdr
  have hsge := hbwf.size_ge
  have hpospre : ∀ x ∈ pre, 1 ≤ GET_SIZE x.hdr := by
    intro x hx
    have := (hwf x (by simp [hx])).size_ge
    omega
  have hlt : ∀ a ∈ freeAddrsFrom 16 pre, a < 16 + sumSizes pre :=
    freeAddrsFrom_lt 16 pre hpospre
  obtain ⟨hchpre, hchbp, hbound⟩ := List.chain'_append.mp hch
  have hchpost : List.Chain' AdjOK post := (List.chain'_cons'.mp hchbp).2
  have hhead : ∀ y, post.head? = some y → GET_ISALLOCATED y.hdr = 1 := by
    intro y hy
    have hadj := (List.chain'_cons'.mp hchbp).1 y hy
    rcases hadj with h | h
    · omega
    · exact h
  have hsum1 : sumSizes [b] = GET_SIZE b.hdr := by
    simp [sumSizes_cons, sumSizes_nil]
  have hffO : ∀ a, a ∈ freeAddrs (pre ++ b :: post) ↔
      (a ∈ freeAddrsFrom 16 pre ∨ a = 16 + sumSizes pre ∨
       a ∈ freeAddrsFrom (16 + sumSizes pre + GET_SIZE b.hdr) post) := by
    intro a
    have h0 : a ∈ freeAddrs (pre ++ ([b] ++ post)) ↔
        (a ∈ freeAddrsFrom 16 pre ∨ a ∈ freeAddrsFrom (16 + sumSizes pre) [b] ∨
         a ∈ freeAddrsFrom (16 + sumSizes pre + sumSizes [b]) post) :=
      freeAddrs_decomp pre [b] post a
    rw [hsum1] at h0
    rw [show pre ++ b :: post = pre ++ ([b] ++ post) from by simp, h0]
    simp [freeAddrsFrom, hbfree]
  have hfl1 : ∀ a, a ∈ remove_node fl (16 + sumSizes pre) ↔
      a ≠ 16 + sumSizes pre ∧ a ∈ fl := fun a => mem_remove_node hnd
  have hfacts : ∀ a ∈ remove_node fl (16 + sumSizes pre),
      (a ∈ freeAddrsFrom 16 pre ∨
       a ∈ freeAddrsFrom (16 + sumSizes pre + GET_SIZE b.hdr) post) := by
    intro a ha
    obtain ⟨hne, hmem⟩ := (hfl1 a).mp ha
    rcases (hffO a).mp ((hiff a).mp hmem) with hm | rfl | hm
    · exact Or.inl hm
    · exact absurd rfl hne
    · exact Or.inr hm
  have hnd1 : (remove_node fl (16 + sumSizes pre)).Nodup := nodup_remove_node _ hnd
  by_cases hsplit : GET_SIZE b.hdr - blk_size ≥ 16
  · -- split: front allocated, remainder free and reinserted
    simp only [allocate_body, if_pos hsplit, Prod.mk.injEq] at hc
    obtain ⟨h1, h2⟩ := hc
    subst h1; subst h2
    have hgsz1 : GET_SIZE (PACK blk_size 1) = blk_size :=
      GET_SIZE_PACK (by omega) (by omega)
    have hgal1 : GET_ISALLOCATED (PACK blk_size 1) = 1 :=
      GET_ISALLOCATED_PACK (by omega) (by omega)
    have hgsz2 : GET_SIZE (PACK (GET_SIZE b.hdr - blk_size) 0) =
        GET_SIZE b.hdr - blk_size := GET_SIZE_PACK (by omega) (by omega)
    have hgal2 : GET_ISALLOCATED (PACK (GET_SIZE b.hdr - blk_size) 0) = 0 :=
      GET_ISALLOCATED_PACK (by omega) (by omega)
    have hmid : sumSizes [(⟨PACK blk_size 1, PACK blk_size 1⟩ : Blk),
        ⟨PACK (GET_SIZE b.hdr - blk_size) 0, PACK (GET_SIZE b.hdr - blk_size) 0⟩] =
        GET_SIZE b.hdr := by
      simp [sumSizes_cons, sumSizes_nil, hgsz1, hgsz2]
      omega
    have hffN : ∀ a, a ∈ freeAddrs (pre ++
        (⟨PACK blk_size 1, PACK blk_size 1⟩ : Blk) ::
        (⟨PACK (GET_SIZE b.hdr - blk_size) 0,
          PACK (GET_SIZE b.hdr - blk_size) 0⟩ : Blk) :: post) ↔
        (a ∈ freeAddrsFrom 16 pre ∨ a = 16 + sumSizes pre + blk_size ∨
         a ∈ freeAddrsFrom (16 + sumSizes pre + GET_SIZE b.hdr) post) := by
      intro a
      have h0 := freeAddrs_decomp pre
        [(⟨PACK blk_size 1, PACK blk_size 1⟩ : Blk),
         ⟨PACK (GET_SIZE b.hdr - blk_size) 0, PACK (GET_SIZE b.hdr - blk_size) 0⟩]
        post a
      rw [hmid] at h0
      rw [show pre ++ (⟨PACK blk_size 1, PACK blk_size 1⟩ : Blk) ::
          (⟨PACK (GET_SIZE b.hdr - blk_size) 0,
            PACK (GET_SIZE b.hdr - blk_size) 0⟩ : Blk) :: post =
          pre ++ ([(⟨PACK blk_size 1, PACK blk_size 1⟩ : Blk),
            ⟨PACK (GET_SIZE b.hdr - blk_size) 0,
             PACK (GET_SIZE b.hdr - blk_size) 0⟩] ++ post) from by simp, h0]
      simp [freeAddrsFrom, hgal1, hgal2, hgsz1]
    have hiff2 : ∀ a, a ∈ remove_node fl (16 + sumSizes pre) ↔
        a ∈ freeAddrs (pre ++
          (⟨PACK blk_size 1, PACK blk_size 1⟩ : Blk) ::
          (⟨PACK (GET_SIZE b.hdr - blk_size) 0,
            PACK (GET_SIZE b.hdr - blk_size) 0⟩ : Blk) :: post) ∧
        a ≠ 16 + sumSizes pre + blk_size := by
      intro a
      rw [hffN a]
      constructor
      · intro ha
        rcases hfacts a ha with hm | hm
        · have := hlt a hm
          exact ⟨Or.inl hm, by omega⟩
        · have := freeAddrsFrom_ge _ post a hm
          exact ⟨Or.inr (Or.inr hm), by omega⟩
      · rintro ⟨(hm | rfl | hm), hne⟩
        · have := hlt a hm
          refine (hfl1 a).mpr ⟨by omega, (hiff a).mpr ((hffO a).mpr (Or.inl hm))⟩
        · exact absurd rfl hne
        · have := freeAddrsFrom_ge _ post a hm
          refine (hfl1 a).mpr ⟨by omega, (hiff a).mpr ((hffO a).mpr (Or.inr (Or.inr hm)))⟩
    have hnone : ∀ a ∈ remove_node fl (16 + sumSizes pre),
        blkAtFrom (16 + sumSizes pre) [b] a = none := by
      intro a ha
      obtain ⟨hne, -⟩ := (hfl1 a).mp ha
      simp [blkAtFrom, hne]
    have hnoneN : ∀ a ∈ remove_node fl (16 + sumSizes pre),
        blkAtFrom (16 + sumSizes pre)
          [(⟨PACK blk_size 1, PACK blk_size 1⟩ : Blk),
           ⟨PACK (GET_SIZE b.hdr - blk_size) 0,
            PACK (GET_SIZE b.hdr - blk_size) 0⟩] a = none := by
      intro a ha
      obtain ⟨hne, -⟩ := (hfl1 a).mp ha
      have hne2 : ¬(a = 16 + sumSizes pre + blk_size) := by
        rcases hfacts a ha with hm | hm
        · have := hlt a hm
          omega
        · have := freeAddrsFrom_ge _ post a hm
          omega
      simp [blkAtFrom, hne, hgsz1, hne2]
    have hS : sumSizes [b] = sumSizes
        [(⟨PACK blk_size 1, PACK blk_size 1⟩ : Blk),
         ⟨PACK (GET_SIZE b.hdr - blk_size) 0,
          PACK (GET_SIZE b.hdr - blk_size) 0⟩] := by
      rw [hsum1, hmid]
    have hsortR := pairwise_remove_node (16 + sumSizes pre) hsort
    have hsort2 := pairwise_transfer pre [b]
      [(⟨PACK blk_size 1, PACK blk_size 1⟩ : Blk),
       ⟨PACK (GET_SIZE b.hdr - blk_size) 0,
        PACK (GET_SIZE b.hdr - blk_size) 0⟩] post
      (remove_node fl (16 + sumSizes pre)) hS hnone hnoneN hsortR
    have hlistform : pre ++ ([(⟨PACK blk_size 1, PACK blk_size 1⟩ : Blk),
        ⟨PACK (GET_SIZE b.hdr - blk_size) 0,
         PACK (GET_SIZE b.hdr - blk_size) 0⟩] ++ post) =
        pre ++ (⟨PACK blk_size 1, PACK blk_size 1⟩ : Blk) ::
          (⟨PACK (GET_SIZE b.hdr - blk_size) 0,
            PACK (GET_SIZE b.hdr - blk_size) 0⟩ : Blk) :: post := by simp
    rw [hlistform] at hsort2
    have hnm2 : (16 + sumSizes pre + blk_size) ∉
        remove_node fl (16 + sumSizes pre) := by
      intro hmemx
      rcases hfacts _ hmemx with hm | hm
      · have := hlt _ hm
        omega
      · have := freeAddrsFrom_ge _ post _ hm
        omega
    obtain ⟨hWF, hmem, hszeq⟩ :=
      rebuild_WF_gen (pre ++ [⟨PACK blk_size 1, PACK blk_size 1⟩])
        ⟨PACK (GET_SIZE b.hdr - blk_size) 0, PACK (GET_SIZE b.hdr - blk_size) 0⟩
        post (remove_node fl (16 + sumSizes pre)) avail
        (pre ++ (⟨PACK blk_size 1, PACK blk_size 1⟩ : Blk) ::
          (⟨PACK (GET_SIZE b.hdr - blk_size) 0,
            PACK (GET_SIZE b.hdr - blk_size) 0⟩ : Blk) :: post)
        (16 + sumSizes pre + blk_size) (GET_SIZE b.hdr - blk_size)
        (by simp)
        (by simp [sumSizes_append, sumSizes_cons, sumSizes_nil, hgsz1]; omega)
        (by rw [hgsz2])
        (by
          intro x hx
          rcases List.mem_append.mp hx with hx1 | hx1
          · exact hwf x (by simp [hx1])
          · rcases List.mem_cons.mp hx1 with rfl | hx2
            · exact BlkWF_pack (by omega) (by omega) (by omega)
            · rcases List.mem_cons.mp hx2 with rfl | hx3
              · exact BlkWF_pack (by omega) (by omega) (by omega)
              · exact hwf x (by simp [hx3]))
        hgal2
        (by
          rw [List.chain'_append]
          refine ⟨hchpre, by simp, ?_⟩
          intro x hx y hy
          simp only [List.head?_cons, Option.mem_def, Option.some.injEq] at hy
          subst hy
          exact Or.inr hgal1)
        hchpost
        (by
          intro x hx
          rw [List.getLast?_concat] at hx
          injection hx with hx
          subst hx
          exact hgal1)
        hhead
        hnd1 hnm2 hiff2 hsort2
    exact ⟨hWF, rfl, rfl⟩
  · -- no split: whole block allocated
    simp only [allocate_body, if_neg hsplit, Prod.mk.injEq] at hc
    obtain ⟨h1, h2⟩ := hc
    subst h1; subst h2
    have hgsz1 : GET_SIZE (PACK (GET_SIZE b.hdr) 1) = GET_SIZE b.hdr :=
      GET_SIZE_PACK (by omega) (by omega)
    have hgal1 : GET_ISALLOCATED (PACK (GET_SIZE b.hdr) 1) = 1 :=
      GET_ISALLOCATED_PACK (by omega) (by omega)
    have hmid : sumSizes [(⟨PACK (GET_SIZE b.hdr) 1, PACK (GET_SIZE b.hdr) 1⟩ : Blk)] =
        GET_SIZE b.hdr := by
      simp [sumSizes_cons, sumSizes_nil, hgsz1]
    have hffN : ∀ a, a ∈ freeAddrs (pre ++
        (⟨PACK (GET_SIZE b.hdr) 1, PACK (GET_SIZE b.hdr) 1⟩ : Blk) :: post) ↔
        (a ∈ freeAddrsFrom 16 pre ∨
         a ∈ freeAddrsFrom (16 + sumSizes pre + GET_SIZE b.hdr) post) := by
      intro a
      have h0 := freeAddrs_decomp pre
        [(⟨PACK (GET_SIZE b.hdr) 1, PACK (GET_SIZE b.hdr) 1⟩ : Blk)] post a
      rw [hmid] at h0
      rw [show pre ++ (⟨PACK (GET_SIZE b.hdr) 1, PACK (GET_SIZE b.hdr) 1⟩ : Blk) ::
          post = pre ++ ([(⟨PACK (GET_SIZE b.hdr) 1, PACK (GET_SIZE b.hdr) 1⟩ : Blk)] ++
          post) from by simp, h0]
      simp [freeAddrsFrom, hgal1]
    refine ⟨⟨?_, ?_, ?_, ?_, ?_⟩, rfl, rfl⟩
    · intro x hx
      rcases List.mem_append.mp hx with hx1 | hx1
      · exact hwf x (by simp [hx1])
      · rcases List.mem_cons.mp hx1 with rfl | hx2
        · exact BlkWF_pack (by omega) (by omega) (by omega)
        · exact hwf x (by simp [hx2])
    · rw [List.chain'_append]
      refine ⟨hchpre, ?_, ?_⟩
      · rw [List.chain'_cons']
        refine ⟨fun y hy => Or.inl hgal1, hchpost⟩
      · intro x hx y hy
        simp only [List.head?_cons, Option.mem_def, Option.some.injEq] at hy
        subst hy
        exact Or.inr hgal1
    · exact hnd1
    · intro a
      rw [hffN a]
      constructor
      · intro ha
        exact hfacts a ha
      · rintro (hm | hm)
        · have := hlt a hm
          exact (hfl1 a).mpr ⟨by omega, (hiff a).mpr ((hffO a).mpr (Or.inl hm))⟩
        · have := freeAddrsFrom_ge _ post a hm
          exact (hfl1 a).mpr ⟨by omega, (hiff a).mpr ((hffO a).mpr (Or.inr (Or.inr hm)))⟩
    · have hnone : ∀ a ∈ remove_node fl (16 + sumSizes pre),
          blkAtFrom (16 + sumSizes pre) [b] a = none := by
        intro a ha
        obtain ⟨hne, -⟩ := (hfl1 a).mp ha
        simp [blkAtFrom, hne]
      have hnoneN : ∀ a ∈ remove_node fl (16 + sumSizes pre),
          blkAtFrom (16 + sumSizes pre)
            [(⟨PACK (GET_SIZE b.hdr) 1, PACK (GET_SIZE b.hdr) 1⟩ : Blk)] a = none := by
        intro a ha
        obtain ⟨hne, -⟩ := (hfl1 a).mp ha
        simp [blkAtFrom, hne]
      have hS : sumSizes [b] = sumSizes
          [(⟨PACK (GET_SIZE b.hdr) 1, PACK (GET_SIZE b.hdr) 1⟩ : Blk)] := by
        rw [hsum1, hmid]
      have hsortR := pairwise_remove_node (16 + sumSizes pre) hsort
      have hsort2 := pairwise_transfer pre [b]
        [(⟨PACK (GET_SIZE b.hdr) 1, PACK (GET_SIZE b.hdr) 1⟩ : Blk)] post
        (remove_node fl (16 + sumSizes pre)) hS hnone hnoneN hsortR
      have hlistform : pre ++
          ([(⟨PACK (GET_SIZE b.hdr) 1, PACK (GET_SIZE b.hdr) 1⟩ : Blk)] ++ post) =
          pre ++ (⟨PACK (GET_SIZE b.hdr) 1, PACK (GET_SIZE b.hdr) 1⟩ : Blk) :: post := by
        simp
      rw [hlistform] at hsort2
      exact hsort2

theorem extend_heap_eq (st : HeapState) (words : Nat) :
    extend_heap st words =
      if st.avail < (if words % 2 = 0 then words else words + 1) * 4 then (none, st)
      else
        (some (coalesce ⟨st.blocks ++
            [⟨PACK ((if words % 2 = 0 then words else words + 1) * 4) 0,
              PACK ((if words % 2 = 0 then words else words + 1) * 4) 0⟩],
            st.freeList,
            st.avail - (if words % 2 = 0 then words else words + 1) * 4⟩
            (16 + sumSizes st.blocks)).1,
         (coalesce ⟨st.blocks ++
            [⟨PACK ((if words % 2 = 0 then words else words + 1) * 4) 0,
              PACK ((if words % 2 = 0 then words else words + 1) * 4) 0⟩],
            st.freeList,
            st.avail - (if words % 2 = 0 then words else words + 1) * 4⟩
            (16 + sumSizes st.blocks)).2) := rfl

theorem extend_heap_spec (st : HeapState) (words : Nat) (hwf : WF st)
    (hw4 : 4 ≤ words)
    (r : Option Nat) (st2 : HeapState)
    (hc : extend_heap st words = (r, st2)) :
    (r = none → st2 = st) ∧
    (∀ bp, r = some bp →
      WF st2 ∧ bp ∈ st2.freeList ∧
      (if words % 2 = 0 then words else words + 1) * 4 ≤ sizeAt st2.blocks bp) := by
  obtain ⟨hwfb, hchain, hnd, hiff, hsort⟩ := hwf
  set ext := (if words % 2 = 0 then words else words + 1) * 4 with hext
  have hext16 : 16 ≤ ext := by
    rw [hext]
    by_cases h2 : words % 2 = 0 <;> simp [h2] <;> omega
  have hext8 : ext % 8 = 0 := by
    rw [hext]
    by_cases h2 : words % 2 = 0
    · simp [h2]
      omega
    · simp [h2]
      omega
  rw [extend_heap_eq, ← hext] at hc
  by_cases hav : st.avail < ext
  · rw [if_pos hav] at hc
    injection hc with h1 h2
    subst h1; subst h2
    refine ⟨fun _ => rfl, ?_⟩
    intro bp hbp
    cases hbp
  · rw [if_neg hav] at hc
    have hpos : ∀ x ∈ st.blocks, 1 ≤ GET_SIZE x.hdr := by
      intro x hx
      have := (hwfb x hx).size_ge
      omega
    have hsplit : splitAtAddr 16
        ((⟨st.blocks ++ [⟨PACK ext 0, PACK ext 0⟩], st.freeList,
           st.avail - ext⟩ : HeapState).blocks)
        (16 + sumSizes st.blocks) =
        some (st.blocks, ⟨PACK ext 0, PACK ext 0⟩, []) := splitAtAddr_at hpos
    rw [coalesce_eq_body hsplit] at hc
    have hgsz : GET_SIZE (PACK ext 0 : Nat) = ext := GET_SIZE_PACK (by omega) (by omega)
    have hgal : GET_ISALLOCATED (PACK ext 0 : Nat) = 0 :=
      GET_ISALLOCATED_PACK (by omega) (by omega)
    have hlt : ∀ a ∈ freeAddrsFrom 16 st.blocks, a < 16 + sumSizes st.blocks :=
      freeAddrsFrom_lt 16 st.blocks hpos
    have hiff2 : ∀ a, a ∈ st.freeList ↔
        a ∈ freeAddrs (st.blocks ++ (⟨PACK ext 0, PACK ext 0⟩ : Blk) :: []) ∧
        a ≠ 16 + sumSizes st.blocks := by
      intro a
      have h0 := freeAddrs_decomp st.blocks [(⟨PACK ext 0, PACK ext 0⟩ : Blk)] [] a
      rw [show st.blocks ++ (⟨PACK ext 0, PACK ext 0⟩ : Blk) :: [] =
          st.blocks ++ ([(⟨PACK ext 0, PACK ext 0⟩ : Blk)] ++ []) from by simp, h0]
      rw [hiff a]
      constructor
      · intro hm
        have := hlt a hm
        refine ⟨Or.inl hm, by omega⟩
      · rintro ⟨hm | hm | hm, hne⟩
        · exact hm
        · simp [freeAddrsFrom, hgal] at hm
          omega
        · simp [freeAddrsFrom] at hm
    have hsort2 : List.Pairwise (fun x y =>
        sizeAt (st.blocks ++ (⟨PACK ext 0, PACK ext 0⟩ : Blk) :: []) x ≤
        sizeAt (st.blocks ++ (⟨PACK ext 0, PACK ext 0⟩ : Blk) :: []) y)
        st.freeList := by
      refine hsort.imp_of_mem ?_
      intro a c ha hc'
      have hsome : ∀ x ∈ st.freeList, (blkAtFrom 16 st.blocks x).isSome := by
        intro x hx
        obtain ⟨bx, hbx, -⟩ := (mem_freeAddrsFrom 16 st.blocks x hpos).mp
          ((hiff x).mp hx)
        rw [hbx]
        rfl
      rw [sizeAt_append_left (hsome a ha), sizeAt_append_left (hsome c hc')]
      exact id
    obtain ⟨hWF2, havail2, hmem2, hsz2⟩ :=
      coalesce_body_spec st.blocks ⟨PACK ext 0, PACK ext 0⟩ [] st.freeList
        (st.avail - ext)
        (by
          intro x hx
          rcases List.mem_append.mp hx with hx1 | hx1
          · exact hwfb x hx1
          · rcases List.mem_cons.mp hx1 with rfl | hx2
            · exact BlkWF_pack (by omega) (by omega) (by omega)
            · cases hx2)
        hgal hchain (by simp) hnd hiff2 hsort2 _ _ rfl
    injection hc with h1 h2
    subst h1; subst h2
    refine ⟨fun h => Option.noConfusion h, ?_⟩
    intro bp hbp
    injection hbp with hbp
    subst hbp
    refine ⟨hWF2, hmem2, ?_⟩
    calc ext = GET_SIZE (PACK ext 0 : Nat) := hgsz.symm
      _ ≤ _ := hsz2

theorem allocate_WF (st : HeapState) (bp k : Nat) (hwf : WF st)
    (hmem : bp ∈ st.freeList) (hfit : k ≤ sizeAt st.blocks bp)
    (hk16 : 16 ≤ k) (hk8 : k % 8 = 0) :
    WF (allocate st bp k).2 ∧ (allocate st bp k).2.avail = st.avail := by
  obtain ⟨hwfb, hchain, hnd, hiff, hsort⟩ := hwf
  have hpos : ∀ x ∈ st.blocks, 1 ≤ GET_SIZE x.hdr := by
    intro x hx
    have := (hwfb x hx).size_ge
    omega
  have hfa : bp ∈ freeAddrs st.blocks := (hiff bp).mp hmem
  obtain ⟨c, hbc, hcfree⟩ := (mem_freeAddrsFrom 16 st.blocks bp hpos).mp hfa
  have hss : (splitAtAddr 16 st.blocks bp).isSome := by
    rw [splitAtAddr_isSome_iff, ← blkAtFrom_isSome_iff, hbc]
    rfl
  obtain ⟨⟨pre, c', post⟩, hsp⟩ := Option.isSome_iff_exists.mp hss
  have hceq : c' = c := by
    have h1 := blkAtFrom_of_split hsp
    rw [hbc] at h1
    injection h1 with h1
    exact h1.symm
  subst hceq
  obtain ⟨hblocks, hbp⟩ := splitAtAddr_eq hsp
  have hfit2 : k ≤ GET_SIZE c'.hdr := by
    unfold sizeAt at hfit
    rw [hbc] at hfit
    exact hfit
  rw [allocate_eq_body hsp]
  rw [hblocks] at hwfb hchain hsort
  have hiff2 : ∀ a, a ∈ st.freeList ↔ a ∈ freeAddrs (pre ++ c' :: post) := by
    intro a
    rw [hiff a, hblocks]
  subst hbp
  obtain ⟨hWF, havail, -⟩ :=
    allocate_body_spec pre c' post st.freeList st.avail k hwfb hcfree hchain hnd
      hiff2 hsort hk16 hk8 hfit2 _ _ rfl
  exact ⟨hWF, havail⟩

theorem mm_free_WF (st : HeapState) (ptr : Nat) (hwf : WF st)
    (hal : isAllocatedAt st ptr = true) : WF (mm_free st ptr) := by
  obtain ⟨hwfb, hchain, hnd, hiff, hsort⟩ := hwf
  have hpos : ∀ x ∈ st.blocks, 1 ≤ GET_SIZE x.hdr := by
    intro x hx
    have := (hwfb x hx).size_ge
    omega
  unfold isAllocatedAt at hal
  rcases hb : blkAtFrom 16 st.blocks ptr with - | b
  · rw [hb] at hal
    simp at hal
  rw [hb] at hal
  simp only [beq_iff_eq] at hal
  have hss : (splitAtAddr 16 st.blocks ptr).isSome := by
    rw [splitAtAddr_isSome_iff, ← blkAtFrom_isSome_iff, hb]
    rfl
  obtain ⟨⟨pre, b', post⟩, hsp⟩ := Option.isSome_iff_exists.mp hss
  have hbeq : b' = b := by
    have h1 := blkAtFrom_of_split hsp
    rw [hb] at h1
    injection h1 with h1
    exact h1.symm
  subst hbeq
  obtain ⟨hblocks, hptr⟩ := splitAtAddr_eq hsp
  have hbwf : BlkWF b' := hwfb b' (by rw [hblocks]; simp)
  have hsge := hbwf.size_ge
  have hsmod := GET_SIZE_mod b'.hdr
  rw [mm_free_eq_body hsp]
  have hbody : mm_free_body pre b' post st.freeList st.avail ptr =
      (coalesce ⟨pre ++ ⟨PACK (GET_SIZE b'.hdr) 0, PACK (GET_SIZE b'.hdr) 0⟩ :: post,
        st.freeList, st.avail⟩ ptr).2 := rfl
  rw [hbody]
  rw [hblocks] at hwfb hchain hsort hpos
  have hiffB : ∀ a, a ∈ st.freeList ↔ a ∈ freeAddrs (pre ++ b' :: post) := by
    intro a
    rw [hiff a, hblocks]
  subst hptr
  have hpospre : ∀ x ∈ pre, 1 ≤ GET_SIZE x.hdr := by
    intro x hx
    exact hpos x (by simp [hx])
  have hsplit2 : splitAtAddr 16
      ((⟨pre ++ ⟨PACK (GET_SIZE b'.hdr) 0, PACK (GET_SIZE b'.hdr) 0⟩ :: post,
        st.freeList, st.avail⟩ : HeapState).blocks) (16 + sumSizes pre) =
      some (pre, ⟨PACK (GET_SIZE b'.hdr) 0, PACK (GET_SIZE b'.hdr) 0⟩, post) :=
    splitAtAddr_at hpospre
  rw [coalesce_eq_body hsplit2]
  have hgsz : GET_SIZE (PACK (GET_SIZE b'.hdr) 0) = GET_SIZE b'.hdr :=
    GET_SIZE_PACK (by omega) (by omega)
  have hgal : GET_ISALLOCATED (PACK (GET_SIZE b'.hdr) 0) = 0 :=
    GET_ISALLOCATED_PACK (by omega) (by omega)
  obtain ⟨hchpre, hchbp, hbound⟩ := List.chain'_append.mp hchain
  have hchpost : List.Chain' AdjOK post := (List.chain'_cons'.mp hchbp).2
  have hlt : ∀ a ∈ freeAddrsFrom 16 pre, a < 16 + sumSizes pre :=
    freeAddrsFrom_lt 16 pre hpospre
  have hsum1 : sumSizes [b'] = GET_SIZE b'.hdr := by
    simp [sumSizes_cons, sumSizes_nil]
  have hmid : sumSizes [(⟨PACK (GET_SIZE b'.hdr) 0, PACK (GET_SIZE b'.hdr) 0⟩ : Blk)] =
      GET_SIZE b'.hdr := by
    simp [sumSizes_cons, sumSizes_nil, hgsz]
  have hffO : ∀ a, a ∈ freeAddrs (pre ++ b' :: post) ↔
      (a ∈ freeAddrsFrom 16 pre ∨
       a ∈ freeAddrsFrom (16 + sumSizes pre + GET_SIZE b'.hdr) post) := by
    intro a
    have h0 := freeAddrs_decomp pre [b'] post a
    rw [hsum1] at h0
    rw [show pre ++ b' :: post = pre ++ ([b'] ++ post) from by simp, h0]
    simp [freeAddrsFrom, hal]
  have hffN : ∀ a, a ∈ freeAddrs (pre ++
      (⟨PACK (GET_SIZE b'.hdr) 0, PACK (GET_SIZE b'.hdr) 0⟩ : Blk) :: post) ↔
      (a ∈ freeAddrsFrom 16 pre ∨ a = 16 + sumSizes pre ∨
       a ∈ freeAddrsFrom (16 + sumSizes pre + GET_SIZE b'.hdr) post) := by
    intro a
    have h0 := freeAddrs_decomp pre
      [(⟨PACK (GET_SIZE b'.hdr) 0, PACK (GET_SIZE b'.hdr) 0⟩ : Blk)] post a
    rw [hmid] at h0
    rw [show pre ++ (⟨PACK (GET_SIZE b'.hdr) 0, PACK (GET_SIZE b'.hdr) 0⟩ : Blk) ::
        post = pre ++ ([(⟨PACK (GET_SIZE b'.hdr) 0, PACK (GET_SIZE b'.hdr) 0⟩ : Blk)]
        ++ post) from by simp, h0]
    simp [freeAddrsFrom, hgal]
  have hfacts : ∀ a ∈ st.freeList, a ≠ 16 + sumSizes pre := by
    intro a ha
    rcases (hffO a).mp ((hiffB a).mp ha) with hm | hm
    · have := hlt a hm
      omega
    · have := freeAddrsFrom_ge _ post a hm
      omega
  have hiff2 : ∀ a, a ∈ st.freeList ↔
      a ∈ freeAddrs (pre ++
        (⟨PACK (GET_SIZE b'.hdr) 0, PACK (GET_SIZE b'.hdr) 0⟩ : Blk) :: post) ∧
      a ≠ 16 + sumSizes pre := by
    intro a
    rw [hffN a]
    constructor
    · intro ha
      rcases (hffO a).mp ((hiffB a).mp ha) with hm | hm
      · exact ⟨Or.inl hm, hfacts a ha⟩
      · exact ⟨Or.inr (Or.inr hm), hfacts a ha⟩
    · rintro ⟨(hm | rfl | hm), hne⟩
      · exact (hiffB a).mpr ((hffO a).mpr (Or.inl hm))
      · exact absurd rfl hne
      · exact (hiffB a).mpr ((hffO a).mpr (Or.inr hm))
  have hnone : ∀ a ∈ st.freeList, blkAtFrom (16 + sumSizes pre) [b'] a = none := by
    intro a ha
    have := hfacts a ha
    simp [blkAtFrom, this]
  have hnoneN : ∀ a ∈ st.freeList, blkAtFrom (16 + sumSizes pre)
      [(⟨PACK (GET_SIZE b'.hdr) 0, PACK (GET_SIZE b'.hdr) 0⟩ : Blk)] a = none := by
    intro a ha
    have := hfacts a ha
    simp [blkAtFrom, this]
  have hS : sumSizes [b'] =
      sumSizes [(⟨PACK (GET_SIZE b'.hdr) 0, PACK (GET_SIZE b'.hdr) 0⟩ : Blk)] := by
    rw [hsum1, hmid]
  have hsort2 := pairwise_transfer pre [b']
    [(⟨PACK (GET_SIZE b'.hdr) 0, PACK (GET_SIZE b'.hdr) 0⟩ : Blk)] post
    st.freeList hS hnone hnoneN hsort
  have hlistform : pre ++
      ([(⟨PACK (GET_SIZE b'.hdr) 0, PACK (GET_SIZE b'.hdr) 0⟩ : Blk)] ++ post) =
      pre ++ (⟨PACK (GET_SIZE b'.hdr) 0, PACK (GET_SIZE b'.hdr) 0⟩ : Blk) :: post := by
    simp
  rw [hlistform] at hsort2
  obtain ⟨hWF, -, -, -⟩ :=
    coalesce_body_spec pre ⟨PACK (GET_SIZE b'.hdr) 0, PACK (GET_SIZE b'.hdr) 0⟩ post
      st.freeList st.avail
      (by
        intro x hx
        rcases List.mem_append.mp hx with hx1 | hx1
        · exact hwfb x (by simp [hx1])
        · rcases List.mem_cons.mp hx1 with rfl | hx2
          · exact BlkWF_pack (by omega) (by omega) (by omega)
          · exact hwfb x (by simp [hx2]))
      hgal hchpre hchpost hnd hiff2 hsort2 _ _ rfl
  exact hWF

theorem mm_malloc_spec (st : HeapState) (size : Nat) (hwf : WF st) :
    WF (mm_malloc st size).2 ∧
    ((mm_malloc st size).1 = none → (mm_malloc st size).2 = st) := by
  by_cases h0 : size = 0
  · subst h0
    exact ⟨hwf, fun _ => rfl⟩
  · have ha16 : 16 ≤ ALIGN (size + 8) := by
      unfold ALIGN
      omega
    have ha8 : ALIGN (size + 8) % 8 = 0 := by
      unfold ALIGN
      omega
    have hmeq : mm_malloc st size =
        (if size = 0 then ((none : Option Nat), st)
         else
           match find_fitting_blk st (ALIGN (size + 8)) with
           | (none, st1) => (none, st1)
           | (some bp, st1) =>
             (some (allocate st1 bp (ALIGN (size + 8))).1,
              (allocate st1 bp (ALIGN (size + 8))).2)) := rfl
    rw [hmeq, if_neg h0]
    rcases hfind : find_fitting_blk st (ALIGN (size + 8)) with ⟨o, st1⟩
    unfold find_fitting_blk at hfind
    rcases hwalk : find_fit_walk st.blocks (ALIGN (size + 8)) st.freeList with - | bp
    · have hfind2 : extend_heap st (max (ALIGN (size + 8)) 4096 / 4) = (o, st1) := by
        rw [hwalk] at hfind
        exact hfind
      have hw4 : 4 ≤ max (ALIGN (size + 8)) 4096 / 4 := by
        have h1 : 4096 ≤ max (ALIGN (size + 8)) 4096 := Nat.le_max_right _ _
        omega
      have hspec := extend_heap_spec st _ hwf hw4 o st1 hfind2
      rcases o with - | bp2
      · have hst : st1 = st := hspec.1 rfl
        subst hst
        exact ⟨hwf, fun _ => rfl⟩
      · obtain ⟨hwf1, hmem, hsz⟩ := hspec.2 bp2 rfl
        have hmax8 : max (ALIGN (size + 8)) 4096 % 8 = 0 := by
          rcases max_choice (ALIGN (size + 8)) 4096 with hm | hm <;> (rw [hm]; try omega)
        have hfit : ALIGN (size + 8) ≤ sizeAt st1.blocks bp2 := by
          have h1 : ALIGN (size + 8) ≤ max (ALIGN (size + 8)) 4096 := Nat.le_max_left _ _
          set m := max (ALIGN (size + 8)) 4096 with hm
          have h2 : (m / 4) % 2 = 0 := by omega
          rw [if_pos h2] at hsz
          have h3 : m / 4 * 4 = m := by omega
          omega
        obtain ⟨hwf2, -⟩ := allocate_WF st1 bp2 (ALIGN (size + 8)) hwf1 hmem hfit ha16 ha8
        exact ⟨hwf2, fun h => Option.noConfusion h⟩
    · have hfind2 : ((some bp : Option Nat), st) = (o, st1) := by
        rw [hwalk] at hfind
        exact hfind
      rw [Prod.mk.injEq] at hfind2
      obtain ⟨ho, hst1⟩ := hfind2
      subst hst1
      obtain ⟨hmem, hfit⟩ := find_fit_walk_some_mem hwalk
      obtain ⟨hwf2, -⟩ := allocate_WF st bp (ALIGN (size + 8)) hwf hmem hfit ha16 ha8
      rw [← ho]
      exact ⟨hwf2, fun h => Option.noConfusion h⟩

theorem mm_init_WF (avail : Nat) (st0 : HeapState)
    (h : mm_init avail = some st0) : WF st0 := by
  unfold mm_init at h
  by_cases hav : avail < 16
  · rw [if_pos hav] at h
    exact Option.noConfusion h
  · rw [if_neg hav] at h
    have hwf0 : WF ⟨[], [], avail - 16⟩ := by
      refine ⟨?_, ?_, ?_, ?_, ?_⟩ <;> simp [freeAddrs, freeAddrsFrom]
    have h2 : (match extend_heap (⟨[], [], avail - 16⟩ : HeapState) (4096 / 4) with
        | (none, _) => (none : Option HeapState)
        | (some _, st1) => some st1) = some st0 := h
    rcases hx : extend_heap (⟨[], [], avail - 16⟩ : HeapState) (4096 / 4) with ⟨r, st1⟩
    rw [hx] at h2
    rcases r with - | bp
    · simp at h2
    · have h3 : some st1 = some st0 := h2
      injection h3 with h3
      subst h3
      have hspec := extend_heap_spec ⟨[], [], avail - 16⟩ (4096 / 4) hwf0
        (by norm_num) (some bp) st1 hx
      exact (hspec.2 bp rfl).1

theorem step_WF (st : HeapState) (op : Op) (hwf : WF st) : WF (step st op) := by
  cases op with
  | acquire n => exact (mm_malloc_spec st n hwf).1
  | release p =>
    have hseq : step st (Op.release p) =
        if isAllocatedAt st p = true then mm_free st p else st := rfl
    rw [hseq]
    by_cases hp : isAllocatedAt st p
    · rw [if_pos hp]
      exact mm_free_WF st p hwf hp
    · rw [if_neg hp]
      exact hwf

theorem run_WF (st : HeapState) (ops : List Op) (hwf : WF st) : WF (run st ops) := by
  induction ops generalizing st with
  | nil => exact hwf
  | cons op ops ih => exact ih _ (step_WF st op hwf)

/-! ### Claim theorems: invariants and best fit -/

/-- Claim C3: for every sequence of acquire/release operations after a
successful `mm_init`, the resulting state (and hence, quantifying over all
prefixes, every observation point) satisfies: (a) every block's header word
equals its footer word; (b) no two physically adjacent blocks are both
free; (c) the free list holds exactly the payload addresses of the blocks
whose headers mark them free. -/
theorem claim_C3 (avail : Nat) (ops : List Op) (st0 : HeapState)
    (hinit : mm_init avail = some st0) :
    (∀ b ∈ (run st0 ops).blocks, b.ftr = b.hdr) ∧
    List.Chain' AdjOK (run st0 ops).blocks ∧
    (∀ a, a ∈ (run st0 ops).freeList ↔ a ∈ freeAddrs (run st0 ops).blocks) := by
  obtain ⟨hwfb, hchain, hnd, hiff, hsort⟩ :=
    run_WF st0 ops (mm_init_WF avail st0 hinit)
  exact ⟨fun b hb => (hwfb b hb).ftr_eq, hchain, hiff⟩

/-- Witness for C3: the invariants hold concretely after `mm_init 4112`
followed by `acquire 100`. -/
theorem claim_C3_witness :
    mm_init 4112 = some stInit ∧
    ((∀ b ∈ (run stInit [Op.acquire 100]).blocks, b.ftr = b.hdr) ∧
     List.Chain' AdjOK (run stInit [Op.acquire 100]).blocks ∧
     (∀ a, a ∈ (run stInit [Op.acquire 100]).freeList ↔
        a ∈ freeAddrs (run stInit [Op.acquire 100]).blocks)) :=
  ⟨by decide, claim_C3 4112 [Op.acquire 100] stInit (by decide)⟩

/-- Claim C7: `insert_node` inserts exactly its argument while preserving
the ascending-size order of the tail-first list, `remove_node` removes
exactly its argument while preserving order and removes the sole element
of a singleton list down to the empty list, and in every reachable state
the free list is duplicate-free, holds exactly the free blocks, is in
ascending size order starting from the tail, and its tail holds a smallest
free block. -/
theorem claim_C7 :
    (∀ bs (fl : List Nat) bp (a : Nat),
      a ∈ insert_node bs fl bp (sizeAt bs bp) ↔ a = bp ∨ a ∈ fl) ∧
    (∀ bs (fl : List Nat) bp,
      List.Pairwise (fun x y => sizeAt bs x ≤ sizeAt bs y) fl →
      List.Pairwise (fun x y => sizeAt bs x ≤ sizeAt bs y)
        (insert_node bs fl bp (sizeAt bs bp))) ∧
    (∀ (fl : List Nat) bp (a : Nat), fl.Nodup →
      (a ∈ remove_node fl bp ↔ a ≠ bp ∧ a ∈ fl)) ∧
    (∀ bs (fl : List Nat) bp,
      List.Pairwise (fun x y => sizeAt bs x ≤ sizeAt bs y) fl →
      List.Pairwise (fun x y => sizeAt bs x ≤ sizeAt bs y)
        (remove_node fl bp)) ∧
    (∀ bp : Nat, remove_node [bp] bp = []) ∧
    (∀ avail ops st0, mm_init avail = some st0 →
      (run st0 ops).freeList.Nodup ∧
      (∀ a, a ∈ (run st0 ops).freeList ↔
        a ∈ freeAddrs (run st0 ops).blocks) ∧
      List.Pairwise
        (fun x y => sizeAt (run st0 ops).blocks x ≤
          sizeAt (run st0 ops).blocks y) (run st0 ops).freeList ∧
      (∀ t, (run st0 ops).freeList.head? = some t →
        ∀ a ∈ (run st0 ops).freeList,
          sizeAt (run st0 ops).blocks t ≤ sizeAt (run st0 ops).blocks a)) := by
  refine ⟨fun bs fl bp a => mem_insert_node bs fl bp (sizeAt bs bp) a,
    fun bs fl bp hs => pairwise_insert_node bs fl bp hs,
    fun fl bp a hnd => mem_remove_node hnd,
    fun bs fl bp hp => pairwise_remove_node bp hp,
    fun bp => by rw [remove_node_eq_erase]; simp,
    ?_⟩
  intro avail ops st0 hinit
  obtain ⟨hwfb, hchain, hnd, hiff, hsort⟩ :=
    run_WF st0 ops (mm_init_WF avail st0 hinit)
  refine ⟨hnd, hiff, hsort, ?_⟩
  intro t ht a ha
  rcases hfl : (run st0 ops).freeList with - | ⟨p, rest⟩
  · rw [hfl] at ht
    simp at ht
  · rw [hfl] at ht ha hsort
    have hpt : p = t := by
      simpa using ht
    subst hpt
    rcases List.mem_cons.mp ha with rfl | har
    · exact le_refl _
    · exact (List.pairwise_cons.mp hsort).1 a har

/-- Witness for C7: concrete singleton removal and the reachable-state
free-list invariants right after `mm_init 4112`. -/
theorem claim_C7_witness :
    remove_node [16] 16 = [] ∧
    mm_init 4112 = some stInit ∧
    ((run stInit []).freeList.Nodup ∧
     (∀ a, a ∈ (run stInit []).freeList ↔
       a ∈ freeAddrs (run stInit []).blocks) ∧
     List.Pairwise
       (fun x y => sizeAt (run stInit []).blocks x ≤
         sizeAt (run stInit []).blocks y) (run stInit []).freeList ∧
     (∀ t, (run stInit []).freeList.head? = some t →
       ∀ a ∈ (run stInit []).freeList,
         sizeAt (run stInit []).blocks t ≤ sizeAt (run stInit []).blocks a)) :=
  ⟨claim_C7.2.2.2.2.1 16, by decide,
   claim_C7.2.2.2.2.2 4112 [] stInit (by decide)⟩

/-- Claim C4: whenever some free block in the index fits the adjusted
request, the tail-first walk returns a fitting block that is smallest
among all fitting free blocks and `find_fitting_blk` returns it without
touching the state (no arena growth); concretely, after `init`,
`acquire 100 = A` (A at 16), `acquire 50 = B`, `release A`, the request
`acquire 90` reuses A's freed space at 16 and the arena is not grown. -/
theorem claim_C4 :
    (∀ bs (fl : List Nat) (k : Nat),
      List.Pairwise (fun x y => sizeAt bs x ≤ sizeAt bs y) fl →
      (∃ c ∈ fl, k ≤ sizeAt bs c) → best_fit_ok bs fl k) ∧
    mm_init 4112 = some stInit ∧
    run stInit [Op.acquire 100, Op.acquire 50, Op.release 16] = stBest ∧
    mm_malloc stBest 90 =
      (some 16, ⟨[⟨113, 113⟩, ⟨65, 65⟩, ⟨3920, 3920⟩], [192], 0⟩) := by
  refine ⟨?_, by decide, by decide, by decide⟩
  intro bs fl k hsort hex
  obtain ⟨bp, hw⟩ := find_fit_walk_exists hex
  obtain ⟨hmem, hfit⟩ := find_fit_walk_some_mem hw
  refine ⟨bp, hw, hmem, hfit,
    fun c hc hkc => find_fit_walk_min hsort hw c hc hkc, ?_⟩
  intro avail
  have hw2 : find_fit_walk (⟨bs, fl, avail⟩ : HeapState).blocks k
      (⟨bs, fl, avail⟩ : HeapState).freeList = some bp := hw
  simp only [find_fitting_blk, hw2]

/-- Witness for C4: the best-fit property applied at the state reached in
the scenario, for the adjusted request `ALIGN (90 + 8) = 104`. -/
theorem claim_C4_witness :
    List.Pairwise
      (fun x y => sizeAt stBest.blocks x ≤ sizeAt stBest.blocks y)
      stBest.freeList ∧
    (∃ c ∈ stBest.freeList, 104 ≤ sizeAt stBest.blocks c) ∧
    best_fit_ok stBest.blocks stBest.freeList 104 :=
  ⟨by decide, by decide,
   claim_C4.1 stBest.blocks stBest.freeList 104 (by decide) (by decide)⟩
